import Mathlib

/-!
# Receipt processor: validation, scoring, score store and bonus tracker

Shallow embedding of `src/models/models.go` and `src/controller/receipts.go`.

Go strings that reach the core come out of `encoding/json`, which always yields
valid UTF-8, so a field is modelled by a Lean `String` (a sequence of Unicode
scalar values).  `len` of a Go string counts UTF-8 bytes (`utf8Len`), `range`
iterates runes.  Machine integers are `Int` with explicit wrap-around
(`wrap64`).  `float64` is modelled exactly: a finite value is a sign, a
mantissa and a binary exponent, and every operation rounds to nearest, ties to
even (`roundNE`), as IEEE-754 binary64 does.
-/

namespace FetchReceipt

/-! ## Character classes of the Go regexp syntax (Perl classes are ASCII-only) -/

/-- Class `\d` of Go regexp: `[0-9]`. -/
def perlDigit (c : Char) : Bool :=
  decide (48 ≤ c.toNat ∧ c.toNat ≤ 57)

/-- Class `\w` of Go regexp: `[0-9A-Za-z_]`. -/
def perlWord (c : Char) : Bool :=
  perlDigit c || decide (65 ≤ c.toNat ∧ c.toNat ≤ 90) ||
    decide (97 ≤ c.toNat ∧ c.toNat ≤ 122) || decide (c.toNat = 95)

/-- Class `\s` of Go regexp: `[\t\n\f\r ]`. -/
def perlSpace (c : Char) : Bool :=
  decide (c.toNat = 9) || decide (c.toNat = 10) || decide (c.toNat = 12) ||
    decide (c.toNat = 13) || decide (c.toNat = 32)

/-- Bracket class of `shortDescRgx`: `[\w\s\-]`. -/
def shortDescClass (c : Char) : Bool :=
  perlWord c || perlSpace c || decide (c.toNat = 45)

/-- Bracket class of `retailerRgx`: `[\w\s\-&]`. -/
def retailerClass (c : Char) : Bool :=
  perlWord c || perlSpace c || decide (c.toNat = 45) || decide (c.toNat = 38)

/-! ## The three validation regexes (models.go 21-24) and `idRgx` (receipts.go 27) -/

/-- `shortDescRgx.MatchString`, pattern `^[\w\s\-]+$`. -/
def shortDescRgx_MatchString (s : String) : Bool :=
  !s.data.isEmpty && s.data.all shortDescClass

/-- `retailerRgx.MatchString`, pattern `^[\w\s\-&]+$`. -/
def retailerRgx_MatchString (s : String) : Bool :=
  !s.data.isEmpty && s.data.all retailerClass

/-- Tail of `^\d+\.\d{2}$` once one digit has been read: `\d*\.\d{2}$`. -/
def dollarAmtAfterDigit : List Char → Bool
  | [] => false
  | c :: rest =>
    if perlDigit c then dollarAmtAfterDigit rest
    else decide (c.toNat = 46) &&
      (match rest with
       | [a, b] => perlDigit a && perlDigit b
       | _ => false)

/-- Matcher of `dollarAmtRgx`, pattern `^\d+\.\d{2}$`, on the runes of the text. -/
def dollarAmtMatch : List Char → Bool
  | [] => false
  | c :: rest => perlDigit c && dollarAmtAfterDigit rest

/-- `dollarAmtRgx.MatchString`. -/
def dollarAmtRgx_MatchString (s : String) : Bool :=
  dollarAmtMatch s.data

/-- `dollarAmtRgx.FindString`: the pattern is anchored at both ends, so the
leftmost match is the whole text, and the result is empty when there is none. -/
def dollarAmtRgx_FindString (s : String) : List Char :=
  if dollarAmtMatch s.data then s.data else []

/-- `idRgx.MatchString`, pattern `^\S+$` (`\S` is the complement of `\s`). -/
def idRgx_MatchString (s : String) : Bool :=
  !s.data.isEmpty && s.data.all (fun c => !perlSpace c)

/-! ## `time.Parse` for the layouts `2006-01-02` and `15:04` -/

/-- Helper `isDigit` of package time. -/
def time_isDigit (c : Char) : Bool :=
  decide (48 ≤ c.toNat ∧ c.toNat ≤ 57)

/-- Value of a decimal digit. -/
def digitVal (c : Char) : Nat :=
  c.toNat - 48

/-- Helper `getnum(s, fixed)` of package time: one or two leading digits, two
required when `fixed`. -/
def time_getnum (s : List Char) (fixed : Bool) : Option (Nat × List Char) :=
  match s with
  | [] => none
  | a :: rest =>
    if !time_isDigit a then none
    else
      match rest with
      | [] => if fixed then none else some (digitVal a, [])
      | b :: rest2 =>
        if time_isDigit b then some (digitVal a * 10 + digitVal b, rest2)
        else if fixed then none else some (digitVal a, rest)

/-- Layout element `2006` (stdLongYear): exactly four digits. -/
def time_getLongYear (s : List Char) : Option (Nat × List Char) :=
  match s with
  | a :: b :: c :: d :: rest =>
    if time_isDigit a && time_isDigit b && time_isDigit c && time_isDigit d then
      some (digitVal a * 1000 + digitVal b * 100 + digitVal c * 10 + digitVal d, rest)
    else none
  | _ => none

/-- Helper `skip(value, p)` of package time for a one-character literal that is
not a space. -/
def time_skip (lit : Nat) (s : List Char) : Option (List Char) :=
  match s with
  | [] => none
  | c :: rest => if c.toNat = lit then some rest else none

/-- Helper `isLeap` of package time. -/
def time_isLeap (year : Nat) : Bool :=
  decide (year % 4 = 0) && (decide (year % 100 ≠ 0) || decide (year % 400 = 0))

/-- Helper `daysIn` of package time. -/
def time_daysIn (month year : Nat) : Nat :=
  if month = 2 then (if time_isLeap year then 29 else 28)
  else if month = 4 ∨ month = 6 ∨ month = 9 ∨ month = 11 then 30
  else 31

/-- A calendar date as `time.Parse(DateFormat, _)` yields it. -/
structure Date where
  year : Nat
  month : Nat
  day : Nat
deriving DecidableEq, Repr

/-- `time.Parse(DateFormat, s)` with `DateFormat = "2006-01-02"`: four-digit
year, two-digit month in 1..12, two-digit day valid for the month, no extra
text.  `none` is a non-nil error. -/
def parseDate (s : String) : Option Date :=
  match time_getLongYear s.data with
  | none => none
  | some (year, v1) =>
    match time_skip 45 v1 with
    | none => none
    | some v2 =>
      match time_getnum v2 true with
      | none => none
      | some (month, v3) =>
        if month = 0 ∨ 12 < month then none
        else
          match time_skip 45 v3 with
          | none => none
          | some v4 =>
            match time_getnum v4 true with
            | none => none
            | some (day, v5) =>
              if !v5.isEmpty then none
              else if day < 1 ∨ time_daysIn month year < day then none
              else some ⟨year, month, day⟩

/-- `time.Parse(TimeFormat, s)` with `TimeFormat = "15:04"`: hour of one or two
digits below 24, a colon, a two-digit minute below 60, no extra text.  The
result is the instant on 0000-01-01 UTC, given in minutes after midnight. -/
def parseTime (s : String) : Option Nat :=
  match time_getnum s.data false with
  | none => none
  | some (hour, v1) =>
    if 24 ≤ hour then none
    else
      match time_skip 58 v1 with
      | none => none
      | some v2 =>
        match time_getnum v2 true with
        | none => none
        | some (min, v3) =>
          if 60 ≤ min then none
          else if !v3.isEmpty then none
          else some (hour * 60 + min)

/-! ## Data model (models.go 29-58) -/

/-- A purchased item in a receipt. -/
structure Item where
  ShortDescription : String
  Price : String
deriving DecidableEq, Repr

/-- A receipt of a transaction. -/
structure Receipt where
  Retailer : String
  Total : String
  PurchaseDate : String
  PurchaseTime : String
  Items : List Item
deriving DecidableEq, Repr

/-- The error values of the two `ValidateProperties` methods, one per
`fmt.Errorf` call site. -/
inductive ValidationError where
  | items
  | retailer
  | total
  | purchaseDate
  | purchaseTime
  | shortDescription
  | price
deriving DecidableEq, Repr

/-- `Item.ValidateProperties` (models.go 37-49); `none` is the nil error. -/
def Item.ValidateProperties (item : Item) : Option ValidationError :=
  if !shortDescRgx_MatchString item.ShortDescription then
    some ValidationError.shortDescription
  else if !dollarAmtRgx_MatchString item.Price then
    some ValidationError.price
  else none

/-- The loop of models.go 88-93: the first item error is returned. -/
def validateItems : List Item → Option ValidationError
  | [] => none
  | item :: rest =>
    match item.ValidateProperties with
    | some err => some err
    | none => validateItems rest

/-- `Receipt.ValidateProperties` (models.go 62-96); `none` is the nil error. -/
def Receipt.ValidateProperties (r : Receipt) : Option ValidationError :=
  if r.Items.length < 1 then some ValidationError.items
  else if !retailerRgx_MatchString r.Retailer then some ValidationError.retailer
  else if !dollarAmtRgx_MatchString r.Total then some ValidationError.total
  else if (parseDate r.PurchaseDate).isNone then some ValidationError.purchaseDate
  else if (parseTime r.PurchaseTime).isNone then some ValidationError.purchaseTime
  else validateItems r.Items

/-! ## Library behaviour used by the scorer -/

/-- Exact model of a `float64`: `finite neg m e` is `(-1)^neg * m * 2^e`. -/
inductive F64 where
  | finite (neg : Bool) (m : Nat) (e : Int)
  | inf (neg : Bool)
  | nan
deriving DecidableEq, Repr

/-- Behaviour of the Go library and platform that the receipt format never
exercises and that is left unspecified here: the Unicode letter and digit tables
above U+007F, `strconv.ParseFloat` on texts that are not of the form
`digits.digit digit`, and the implementation-dependent result of converting to
`int64` a float that `int64` cannot represent. -/
structure GoLib where
  isLetterHigh : Char → Bool
  isDigitHigh : Char → Bool
  parseFloatOther : String → F64
  int64OutOfRange : F64 → Int

/-- `unicode.IsDigit`: `0`-`9` in ASCII, the Unicode table above. -/
def unicode_IsDigit (L : GoLib) (c : Char) : Bool :=
  if c.toNat < 128 then decide (48 ≤ c.toNat ∧ c.toNat ≤ 57) else L.isDigitHigh c

/-- `unicode.IsLetter`: `A`-`Z`, `a`-`z` in ASCII, the Unicode table above. -/
def unicode_IsLetter (L : GoLib) (c : Char) : Bool :=
  if c.toNat < 128 then
    decide (65 ≤ c.toNat ∧ c.toNat ≤ 90) || decide (97 ≤ c.toNat ∧ c.toNat ≤ 122)
  else L.isLetterHigh c

/-- `unicode.IsSpace`: the Unicode White_Space property. -/
def unicode_IsSpace (c : Char) : Bool :=
  let n := c.toNat
  decide (9 ≤ n ∧ n ≤ 13) || decide (n = 32) || decide (n = 0x85) || decide (n = 0xA0) ||
    decide (n = 0x1680) || decide (0x2000 ≤ n ∧ n ≤ 0x200A) || decide (n = 0x2028) ||
    decide (n = 0x2029) || decide (n = 0x202F) || decide (n = 0x205F) || decide (n = 0x3000)

/-- `strings.TrimSpace` on the runes of a string. -/
def strings_TrimSpace (s : List Char) : List Char :=
  ((s.dropWhile unicode_IsSpace).reverse.dropWhile unicode_IsSpace).reverse

/-- Number of bytes of the UTF-8 encoding of a rune. -/
def runeLen (c : Char) : Nat :=
  if c.toNat < 0x80 then 1 else if c.toNat < 0x800 then 2 else if c.toNat < 0x10000 then 3 else 4

/-- Builtin `len` on a Go string: its number of UTF-8 bytes. -/
def utf8Len (s : List Char) : Nat :=
  (s.map runeLen).sum

/-- `strings.Split(s, ".")`. -/
def strings_SplitDot : List Char → List (List Char)
  | [] => [[]]
  | c :: rest =>
    if c.toNat = 46 then [] :: strings_SplitDot rest
    else
      match strings_SplitDot rest with
      | [] => [[c]]
      | p :: ps => (c :: p) :: ps

/-- Value of a run of decimal digits. -/
def decimalValue (s : List Char) : Nat :=
  s.foldl (fun acc c => acc * 10 + digitVal c) 0

/-- `strconv.Atoi`: optional sign and decimal digits; the pair is the value and
whether the error is nil.  A syntax error gives 0, a range error the nearest
`int` bound. -/
def strconv_Atoi (s : List Char) : Int × Bool :=
  let neg : Bool := match s with
    | c :: _ => decide (c.toNat = 45)
    | [] => false
  let body : List Char := match s with
    | c :: rest => if c.toNat = 45 ∨ c.toNat = 43 then rest else s
    | [] => []
  if body.isEmpty || !body.all perlDigit then (0, false)
  else
    let n := decimalValue body
    if neg then (if 2 ^ 63 < n then (-(2 ^ 63 : Int), false) else (-(n : Int), true))
    else (if 2 ^ 63 ≤ n then ((2 ^ 63 - 1 : Int), false) else ((n : Int), true))

/-- Number of binary digits of `n`, by halving at most `fuel` times. -/
def bitLen : Nat → Nat → Nat
  | 0, _ => 0
  | fuel + 1, n => if n = 0 then 0 else bitLen fuel (n / 2) + 1

/-- Number of binary digits of `n` (0 for 0). -/
def bits (n : Nat) : Nat :=
  bitLen n n

/-- The fraction `(n, d)` with `n / d = (num / den) / 2^e`. -/
def scaleBy (num den : Nat) (e : Int) : Nat × Nat :=
  if 0 ≤ e then (num, den * 2 ^ e.toNat) else (num * 2 ^ (-e).toNat, den)

/-- The binary64 exponent of the unit in the last place for the positive value
`num / den`: the `e` with `2^52 ≤ (num / den) / 2^e < 2^53`, and `-1074` in the
subnormal range. -/
def binExponent (num den : Nat) : Int :=
  let e1 : Int := (bits num : Int) - (bits den : Int) - 53
  let e : Int := if 2 ^ 53 * (scaleBy num den e1).2 ≤ (scaleBy num den e1).1 then e1 + 1 else e1
  max e (-1074)

/-- Nearest integer to `n / d`, ties to even. -/
def roundHalfEven (n d : Nat) : Nat :=
  if d < 2 * (n % d) ∨ (2 * (n % d) = d ∧ (n / d) % 2 = 1) then n / d + 1 else n / d

/-- IEEE-754 binary64 rounding to nearest, ties to even, of the rational
`num / den` with sign `neg`; values from `2^1024` on overflow to infinity. -/
def roundNE (neg : Bool) (num den : Nat) : F64 :=
  if num = 0 then F64.finite neg 0 0
  else
    let e := binExponent num den
    let m := roundHalfEven (scaleBy num den e).1 (scaleBy num den e).2
    if 971 < e ∨ (e = 971 ∧ 2 ^ 53 ≤ m) then F64.inf neg else F64.finite neg m e

/-- The untyped constant `0.2` converted to `float64`. -/
def f64_const_0_2 : F64 :=
  roundNE false 2 10

/-- Multiplication of two `float64` values. -/
def F64.mul : F64 → F64 → F64
  | F64.nan, _ => F64.nan
  | _, F64.nan => F64.nan
  | F64.inf s, F64.inf t => F64.inf (xor s t)
  | F64.inf s, F64.finite t m _ => if m = 0 then F64.nan else F64.inf (xor s t)
  | F64.finite s m _, F64.inf t => if m = 0 then F64.nan else F64.inf (xor s t)
  | F64.finite s m1 e1, F64.finite t m2 e2 =>
    roundNE (xor s t) (scaleBy (m1 * m2) 1 (-(e1 + e2))).1 (scaleBy (m1 * m2) 1 (-(e1 + e2))).2

/-- `math.Ceil`. -/
def math_Ceil : F64 → F64
  | F64.finite neg m e =>
    if 0 ≤ e then F64.finite neg m e
    else if neg then F64.finite true (m / 2 ^ (-e).toNat) 0
    else F64.finite false ((m + 2 ^ (-e).toNat - 1) / 2 ^ (-e).toNat) 0
  | x => x

/-- Wrap-around of `int64` arithmetic. -/
def wrap64 (x : Int) : Int :=
  (x + 2 ^ 63) % 2 ^ 64 - 2 ^ 63

/-- Addition on `int64`. -/
def add64 (a b : Int) : Int :=
  wrap64 (a + b)

/-- Conversion `int64(x)` of a `float64`: truncation toward zero when the
result is representable, implementation-dependent otherwise. -/
def int64OfFloat (L : GoLib) (x : F64) : Int :=
  match x with
  | F64.finite neg m e =>
    let mag : Nat := if 0 ≤ e then m * 2 ^ e.toNat else m / 2 ^ (-e).toNat
    let v : Int := if neg then -(mag : Int) else (mag : Int)
    if -(2 ^ 63 : Int) ≤ v ∧ v < 2 ^ 63 then v else wrap64 (L.int64OutOfRange x)
  | _ => wrap64 (L.int64OutOfRange x)

/-- `strconv.ParseFloat(s, 64)` with its error discarded: on a text of the form
`digits.digit digit` the nearest `float64` of its decimal value (infinity on
overflow). -/
def strconv_ParseFloat (L : GoLib) (s : String) : F64 :=
  if dollarAmtMatch s.data then
    roundNE false (decimalValue (s.data.filter (fun c => decide (c.toNat ≠ 46)))) 100
  else L.parseFloatOther s

/-! ## The scorer (models.go 98-155), one definition per rule, in source order -/

/-- Retailer alphanum rule (models.go 104-109): the loop over the runes. -/
def retailerRule (L : GoLib) : List Char → Int → Int
  | [], totalPoints => totalPoints
  | c :: rest, totalPoints =>
    retailerRule L rest
      (if unicode_IsDigit L c || unicode_IsLetter L c then add64 totalPoints 1 else totalPoints)

/-- Parse of the total, round dollar rule and multiple of 0.25 rule
(models.go 111-125).  `none` is the run-time panic of `parts[1]` when `parts`
has fewer than two elements; `%` is Go's truncated remainder. -/
def totalRule (total : String) (totalPoints : Int) : Option Int :=
  let s := dollarAmtRgx_FindString total
  let parts := strings_SplitDot s
  match parts.get? 1 with
  | none => none
  | some p =>
    let cents := (strconv_Atoi p).1
    let totalPoints := if cents = 0 then add64 totalPoints 50 else totalPoints
    let totalPoints := if cents.tmod 25 = 0 then add64 totalPoints 25 else totalPoints
    some totalPoints

/-- Every 2 items rule (models.go 127-128). -/
def pairRule (items : List Item) (totalPoints : Int) : Int :=
  add64 totalPoints (wrap64 (5 * ((items.length / 2 : Nat) : Int)))

/-- The expression `int64(math.Ceil(priceAmt * 0.2))` of models.go 134-135. -/
def priceFifth (L : GoLib) (price : String) : Int :=
  int64OfFloat L (math_Ceil ((strconv_ParseFloat L price).mul f64_const_0_2))

/-- Trimmed description rule (models.go 130-137): the loop over the items. -/
def descriptionRule (L : GoLib) : List Item → Int → Int
  | [], totalPoints => totalPoints
  | item :: rest, totalPoints =>
    descriptionRule L rest
      (if utf8Len (strings_TrimSpace item.ShortDescription.data) % 3 = 0 ∧
          0 < utf8Len (strings_TrimSpace item.ShortDescription.data)
        then add64 totalPoints (priceFifth L item.Price) else totalPoints)

/-- Odd day rule (models.go 139-143).  When the parse fails its error is
discarded and `d` is the zero `Time`, January 1 of year 1, whose day is 1. -/
def dayRule (purchaseDate : String) (totalPoints : Int) : Int :=
  let day : Nat := match parseDate purchaseDate with
    | some d => d.day
    | none => 1
  if day % 2 ≠ 0 then add64 totalPoints 6 else totalPoints

/-- The zero `Time` (0001-01-01 00:00 UTC) in minutes after 0000-01-01 00:00
UTC: year 0 is a leap year. -/
def zeroTimeMinutes : Nat :=
  366 * 24 * 60

/-- The 2-4 PM rule (models.go 145-151): `t.After(twoPM) && t.Before(fourPM)`
with `twoPM` parsed from `14:00` and `fourPM` parsed from `18:00`. -/
def timeRule (purchaseTime : String) (totalPoints : Int) : Int :=
  let t := (parseTime purchaseTime).getD zeroTimeMinutes
  let twoPM := (parseTime "14:00").getD zeroTimeMinutes
  let fourPM := (parseTime "18:00").getD zeroTimeMinutes
  if twoPM < t ∧ t < fourPM then add64 totalPoints 10 else totalPoints

/-- `Receipt.CalculatePoints` (models.go 100-155).  `none` is a run-time panic. -/
def Receipt.CalculatePoints (L : GoLib) (r : Receipt) : Option Int :=
  let totalPoints : Int := 0
  let totalPoints := retailerRule L r.Retailer.data totalPoints
  match totalRule r.Total totalPoints with
  | none => none
  | some totalPoints =>
    let totalPoints := pairRule r.Items totalPoints
    let totalPoints := descriptionRule L r.Items totalPoints
    let totalPoints := dayRule r.PurchaseDate totalPoints
    let totalPoints := timeRule r.PurchaseTime totalPoints
    some totalPoints

/-! ## The controller (receipts.go) -/

/-- Response body of `ProcessReceipt`. -/
structure ProcessReceiptResponse where
  Id : String
deriving DecidableEq, Repr

/-- Response body of `GetPoints`. -/
structure GetPointsResponse where
  Points : Int
deriving DecidableEq, Repr

/-- What a handler writes: a status with a plain-text body, status 200 with one
of the two JSON bodies, or nothing when the handler panics. -/
inductive HttpResponse where
  | text (status : Nat) (body : String)
  | processed (resp : ProcessReceiptResponse)
  | points (resp : GetPointsResponse)
  | panicked
deriving DecidableEq, Repr

/-- The two process-wide maps `pointsStore` and `bonusMap` (receipts.go 31-33),
as finite maps from keys to `int64` values. -/
structure ServerState where
  pointsStore : String → Option Int
  bonusMap : String → Option Int

/-- State of a fresh server: both maps empty. -/
def ServerState.empty : ServerState :=
  ⟨fun _ => none, fun _ => none⟩

/-- `sync.Map.Store`. -/
def syncMap_Store (m : String → Option Int) (key : String) (value : Int) : String → Option Int :=
  fun k => if k = key then some value else m k

/-- Lower-case hexadecimal digit of `n % 16`. -/
def hexDigit (n : Nat) : Char :=
  "0123456789abcdef".data.getD (n % 16) '0'

/-- `hex.Encode`: two digits per byte. -/
def hexEncode : List Nat → List Char
  | [] => []
  | b :: rest => hexDigit (b / 16) :: hexDigit b :: hexEncode rest

/-- `uuid.New()`: sixteen bytes from the random source `rnd`, with the version
(4) and variant (RFC 4122) bits set. -/
def uuid_New (rnd : List Nat) : List Nat :=
  (List.range 16).map (fun i =>
    if i = 6 then 0x40 + rnd.getD i 0 % 16
    else if i = 8 then 0x80 + rnd.getD i 0 % 64
    else rnd.getD i 0 % 256)

/-- `UUID.String()`: the form `xxxxxxxx-xxxx-xxxx-xxxx-xxxxxxxxxxxx`. -/
def uuid_String (u : List Nat) : String :=
  ⟨hexEncode (u.take 4) ++ '-' :: hexEncode ((u.drop 4).take 2) ++
    '-' :: hexEncode ((u.drop 6).take 2) ++ '-' :: hexEncode ((u.drop 8).take 2) ++
    '-' :: hexEncode ((u.drop 10).take 6)⟩

/-- The bonus computation of receipts.go 67-82 for the submitter key `userID`. -/
def bonusPointsFor (st : ServerState) (userID : String) : Int :=
  let bonusPoints : Int := 0
  let n : Int := match st.bonusMap userID with
    | some timesProcessed => timesProcessed
    | none => 0
  let bonusPoints := if n < 3 then 250 else bonusPoints
  let bonusPoints := if n < 2 then 500 else bonusPoints
  let bonusPoints := if n < 1 then 1000 else bonusPoints
  bonusPoints

/-- The call `receiptData.CalculatePoints(bonusPoints)` of receipts.go 84.  The
method that models.go 100 declares has no parameter and its body reads no bonus:
the argument does not reach the score. -/
def CalculatePoints_call (L : GoLib) (receiptData : Receipt) (_bonusPoints : Int) : Option Int :=
  receiptData.CalculatePoints L

/-- `ProcessReceipt` (receipts.go 36-102) from the unmarshalled body on.  The
field `UserID` that line 69 reads is not declared by the `Receipt` of models.go,
so the submitter key is the argument `userID`; `rnd` is the random source of
`uuid.New()`.  A panic of the scorer leaves both maps as they were. -/
def ProcessReceipt (L : GoLib) (st : ServerState) (userID : String) (rnd : List Nat)
    (receiptData : Receipt) : HttpResponse × ServerState :=
  match receiptData.ValidateProperties with
  | some _ => (HttpResponse.text 400 "The receipt is invalid.", st)
  | none =>
    let id := uuid_String (uuid_New rnd)
    let n : Int := match st.bonusMap userID with
      | some timesProcessed => timesProcessed
      | none => 0
    let bonusPoints := bonusPointsFor st userID
    match CalculatePoints_call L receiptData bonusPoints with
    | none => (HttpResponse.panicked, st)
    | some nPoints =>
      (HttpResponse.processed ⟨id⟩,
        ⟨syncMap_Store st.pointsStore id nPoints, syncMap_Store st.bonusMap userID (add64 n 1)⟩)

/-- `GetPoints` (receipts.go 105-157) from the path value `id` on. -/
def GetPoints (st : ServerState) (receiptID : String) : HttpResponse × ServerState :=
  if receiptID = "" then (HttpResponse.text 404 "No receipt found for that ID.", st)
  else if !idRgx_MatchString receiptID then
    (HttpResponse.text 404 "No receipt found for that ID.", st)
  else
    match st.pointsStore receiptID with
    | none => (HttpResponse.text 404 "No receipt found for that ID.", st)
    | some n => (HttpResponse.points ⟨n⟩, st)

/-! ## The receipts of the end-to-end tests -/

/-- Receipt of `TestProcessValidReceipt1` (scenario A). -/
def scenarioA : Receipt :=
  ⟨"Target", "35.35", "2022-01-01", "13:01",
    [⟨"Mountain Dew 12PK", "6.49"⟩, ⟨"Emils Cheese Pizza", "12.25"⟩,
     ⟨"Knorr Creamy Chicken", "1.26"⟩, ⟨"Doritos Nacho Cheese", "3.35"⟩,
     ⟨"   Klarbrunn 12-PK 12 FL OZ  ", "12.00"⟩]⟩

/-- Receipt of `TestProcessValidReceipt2` (scenario B). -/
def scenarioB : Receipt :=
  ⟨"M&M Corner Market", "9.00", "2022-03-20", "14:33",
    [⟨"Gatorade", "2.25"⟩, ⟨"Gatorade", "2.25"⟩, ⟨"Gatorade", "2.25"⟩, ⟨"Gatorade", "2.25"⟩]⟩

/-! ## The logging scorer (models.go 157-226); `log.Printf` calls write to the
log only and are left out -/

/-- The loop of models.go 164-168 on the local counter `addition`. -/
def verboseRetailerLoop (L : GoLib) : List Char → Int → Int
  | [], addition => addition
  | c :: rest, addition =>
    verboseRetailerLoop L rest
      (if unicode_IsDigit L c || unicode_IsLetter L c then add64 addition 1 else addition)

/-- The loop of models.go 197-206: `addition` is local to the iteration and is
added to `totalPoints`. -/
def verboseDescriptionLoop (L : GoLib) : List Item → Int → Int
  | [], totalPoints => totalPoints
  | item :: rest, totalPoints =>
    verboseDescriptionLoop L rest
      (if utf8Len (strings_TrimSpace item.ShortDescription.data) % 3 = 0 ∧
          0 < utf8Len (strings_TrimSpace item.ShortDescription.data)
        then
          let addition : Int :=
            int64OfFloat L (math_Ceil ((strconv_ParseFloat L item.Price).mul f64_const_0_2))
          add64 totalPoints addition
        else totalPoints)

/-- `Receipt.CalculatePointsVerbose` (models.go 158-226).  `none` is a run-time
panic. -/
def Receipt.CalculatePointsVerbose (L : GoLib) (r : Receipt) : Option Int :=
  let totalPoints : Int := 0
  let addition : Int := verboseRetailerLoop L r.Retailer.data 0
  let totalPoints := add64 totalPoints addition
  let s := dollarAmtRgx_FindString r.Total
  let parts := strings_SplitDot s
  match parts.get? 1 with
  | none => none
  | some p =>
    let cents := (strconv_Atoi p).1
    let totalPoints := if cents = 0 then add64 totalPoints 50 else totalPoints
    let totalPoints := if cents.tmod 25 = 0 then add64 totalPoints 25 else totalPoints
    let addition : Int := wrap64 (5 * ((r.Items.length / 2 : Nat) : Int))
    let totalPoints := add64 totalPoints addition
    let totalPoints := verboseDescriptionLoop L r.Items totalPoints
    let day : Nat := match parseDate r.PurchaseDate with
      | some d => d.day
      | none => 1
    let totalPoints := if day % 2 ≠ 0 then add64 totalPoints 6 else totalPoints
    let t := (parseTime r.PurchaseTime).getD zeroTimeMinutes
    let twoPM := (parseTime "14:00").getD zeroTimeMinutes
    let fourPM := (parseTime "18:00").getD zeroTimeMinutes
    let totalPoints := if twoPM < t ∧ t < fourPM then add64 totalPoints 10 else totalPoints
    some totalPoints

/-! ## One `ProcessReceipt` call as a sequence of atomic accesses to the maps

Each `sync.Map` operation is atomic on its own; between two of them another
call may run.  A call that passed validation performs `bonusMap.Load`
(receipts.go 69), `pointsStore.Store` (85) and `bonusMap.Store` (86). -/

/-- Where a `ProcessReceipt` call stands: `n` and `bonusPoints` are the local
variables set by lines 67-82 from the loaded counter. -/
inductive HandlerPc where
  | start
  | rejected
  | loaded (n bonusPoints : Int)
  | scored (n bonusPoints : Int)
  | finished (n bonusPoints : Int)
  | panicked
deriving DecidableEq, Repr

/-- A `ProcessReceipt` call in progress. -/
structure Handler where
  userID : String
  rnd : List Nat
  receiptData : Receipt
  pc : HandlerPc

/-- One atomic step of a call on the shared maps. -/
def Handler.step (L : GoLib) (st : ServerState) (h : Handler) : ServerState × Handler :=
  match h.pc with
  | HandlerPc.start =>
    match h.receiptData.ValidateProperties with
    | some _ => (st, ⟨h.userID, h.rnd, h.receiptData, HandlerPc.rejected⟩)
    | none =>
      let n : Int := match st.bonusMap h.userID with
        | some timesProcessed => timesProcessed
        | none => 0
      (st, ⟨h.userID, h.rnd, h.receiptData, HandlerPc.loaded n (bonusPointsFor st h.userID)⟩)
  | HandlerPc.loaded n bonusPoints =>
    match CalculatePoints_call L h.receiptData bonusPoints with
    | none => (st, ⟨h.userID, h.rnd, h.receiptData, HandlerPc.panicked⟩)
    | some nPoints =>
      (⟨syncMap_Store st.pointsStore (uuid_String (uuid_New h.rnd)) nPoints, st.bonusMap⟩,
        ⟨h.userID, h.rnd, h.receiptData, HandlerPc.scored n bonusPoints⟩)
  | HandlerPc.scored n bonusPoints =>
    (⟨st.pointsStore, syncMap_Store st.bonusMap h.userID (add64 n 1)⟩,
      ⟨h.userID, h.rnd, h.receiptData, HandlerPc.finished n bonusPoints⟩)
  | _ => (st, h)

/-- Two concurrent calls under a schedule: `false` lets the first call take its
next atomic step, `true` the second. -/
def runSchedule (L : GoLib) :
    ServerState × Handler × Handler → List Bool → ServerState × Handler × Handler
  | c, [] => c
  | (st, h1, h2), false :: rest =>
    runSchedule L ((h1.step L st).1, (h1.step L st).2, h2) rest
  | (st, h1, h2), true :: rest =>
    runSchedule L ((h2.step L st).1, h1, (h2.step L st).2) rest

/-- Whether `strconv.ParseFloat(s, 64)` returns the error `ErrRange` on a text
of the form `digits.digit digit`: such a text is well formed, and the error is
returned exactly when its value rounds to infinity. -/
def strconv_ParseFloat_errRange (s : String) : Bool :=
  dollarAmtMatch s.data &&
    (match roundNE false (decimalValue (s.data.filter (fun c => decide (c.toNat ≠ 46)))) 100 with
     | F64.inf _ => true
     | _ => false)

/-! ## Definitions that follow the wording of the specification, and test fixtures -/

/-- The language of `^\d+\.\d{2}$` in words: one or more digits, a dot, exactly
two digits. -/
def IsDollarAmt (s : List Char) : Prop :=
  ∃ (dollars : List Char) (a b : Char), dollars ≠ [] ∧ (∀ c ∈ dollars, perlDigit c = true) ∧
    perlDigit a = true ∧ perlDigit b = true ∧ s = dollars ++ ['.', a, b]

/-- The texts of the form `YYYY-MM-DD`: four digits, two digits that give a
month in 1..12, two digits that give a day of that month, with `-` between. -/
def IsDateText (s : List Char) : Prop :=
  ∃ y1 y2 y3 y4 m1 m2 d1 d2 : Char,
    perlDigit y1 = true ∧ perlDigit y2 = true ∧ perlDigit y3 = true ∧ perlDigit y4 = true ∧
    perlDigit m1 = true ∧ perlDigit m2 = true ∧ perlDigit d1 = true ∧ perlDigit d2 = true ∧
    s = [y1, y2, y3, y4, '-', m1, m2, '-', d1, d2] ∧
    1 ≤ digitVal m1 * 10 + digitVal m2 ∧ digitVal m1 * 10 + digitVal m2 ≤ 12 ∧
    1 ≤ digitVal d1 * 10 + digitVal d2 ∧
    digitVal d1 * 10 + digitVal d2 ≤
      time_daysIn (digitVal m1 * 10 + digitVal m2)
        (digitVal y1 * 1000 + digitVal y2 * 100 + digitVal y3 * 10 + digitVal y4)

/-- The texts of a time of day on the 24-hour clock: an hour of one or two
digits below 24, a colon, and two digits that give a minute below 60. -/
def IsTimeText (s : List Char) : Prop :=
  ∃ (h : List Char) (a b : Char),
    (h.length = 1 ∨ h.length = 2) ∧ (∀ c ∈ h, perlDigit c = true) ∧
    perlDigit a = true ∧ perlDigit b = true ∧ s = h ++ [':', a, b] ∧
    decimalValue h < 24 ∧ digitVal a * 10 + digitVal b < 60

/-- The receipts that are valid in the words of the specification: `items`
non-empty, `retailer` in `^[\w\s\-&]+$`, `total` in `^\d+\.\d{2}$`, the date and
the time parse under their layouts, and every item has a description in
`^[\w\s\-]+$` and a price in `^\d+\.\d{2}$`. -/
def ValidReceiptSpec (r : Receipt) : Prop :=
  r.Items ≠ [] ∧
  (r.Retailer.data ≠ [] ∧ ∀ c ∈ r.Retailer.data, retailerClass c = true) ∧
  IsDollarAmt r.Total.data ∧
  (∃ d, parseDate r.PurchaseDate = some d) ∧
  (∃ t, parseTime r.PurchaseTime = some t) ∧
  ∀ item ∈ r.Items,
    (item.ShortDescription.data ≠ [] ∧ ∀ c ∈ item.ShortDescription.data, shortDescClass c = true) ∧
    IsDollarAmt item.Price.data

/-- An instance of the unspecified library behaviour, for concrete runs: no
letters or digits above U+007F, `NaN` for other float texts, and the smallest
`int64` for an unrepresentable conversion (as on amd64). -/
def sampleLib : GoLib :=
  ⟨fun _ => false, fun _ => false, fun _ => F64.nan, fun _ => -(2 ^ 63)⟩

/-- Receipt of `TestProcessReceiptWithoutItems`. -/
def receiptWithoutItems : Receipt :=
  ⟨"Target", "35.35", "2022-01-01", "13:01", []⟩

/-- One `ProcessReceipt` call of a sequential run: the submitter key, the
random source of the identifier, and the receipt. -/
structure Submission where
  userID : String
  rnd : List Nat
  receipt : Receipt

/-- State of the two maps after a sequential run of `ProcessReceipt` calls. -/
def runSubmissions (L : GoLib) (st : ServerState) : List Submission → ServerState
  | [] => st
  | s :: rest => runSubmissions L (ProcessReceipt L st s.userID s.rnd s.receipt).2 rest

/-- Number of submissions of a run that carry the key `userID` and a receipt
that validation accepts (the successful submissions for that key). -/
def successCount (userID : String) (subs : List Submission) : Nat :=
  (subs.filter (fun s =>
    decide (s.userID = userID) && decide (s.receipt.ValidateProperties = none))).length

/-- Counter of a submitter key in `bonusMap`, 0 for a key never stored. -/
def timesProcessed (st : ServerState) (userID : String) : Int :=
  match st.bonusMap userID with
  | some t => t
  | none => 0

/-- Bonus of the `k`-th successful submission of a key in the words of the
specification: 1000, 500, 250, then 0. -/
def bonusTierSpec (k : Nat) : Int :=
  if k = 1 then 1000 else if k = 2 then 500 else if k = 3 then 250 else 0

/-- A run for the witness of the bonus tiers: four accepted submissions for
`alice`, with one for `bob` and one rejected submission for `alice` in between. -/
def sampleRun : List Submission :=
  [⟨"alice", [1], scenarioA⟩, ⟨"bob", [2], scenarioB⟩, ⟨"alice", [3], scenarioB⟩,
   ⟨"alice", [4], receiptWithoutItems⟩, ⟨"alice", [5], scenarioA⟩, ⟨"alice", [6], scenarioA⟩]

/-- A price `dollars.ab` read as an exact decimal number, in cents. -/
def priceCents (price : String) : Nat :=
  decimalValue (price.data.filter (fun c => decide (c.toNat ≠ 46)))

/-- The number `ceil(price * 0.2)` for an exact price of `cents` cents, that is
`ceil(cents / 500)`. -/
def exactFifth (cents : Nat) : Int :=
  ⌈(cents : ℚ) / 500⌉

/-- Trimmed-description rule in the words of the specification: the sum, over
the items whose trimmed description has a length that is a positive multiple of
3, of `ceil(price * 0.2)` with the price an exact decimal number. -/
def descriptionPointsSpec : List Item → Int
  | [] => 0
  | item :: rest =>
    (if (strings_TrimSpace item.ShortDescription.data).length % 3 = 0 ∧
        0 < (strings_TrimSpace item.ShortDescription.data).length
      then exactFifth (priceCents item.Price) else 0) + descriptionPointsSpec rest

/-- A validated receipt with one item of price 1000000000000000.01, whose
nearest `float64` is 1000000000000000. -/
def largePriceReceipt : Receipt :=
  ⟨"Target", "1000000000000000.01", "2022-01-01", "13:01", [⟨"abc", "1000000000000000.01"⟩]⟩

/-- The letters and decimal digits of ASCII. -/
def isAsciiAlnum (c : Char) : Bool :=
  decide (48 ≤ c.toNat ∧ c.toNat ≤ 57) || decide (65 ≤ c.toNat ∧ c.toNat ≤ 90) ||
    decide (97 ≤ c.toNat ∧ c.toNat ≤ 122)

/-- The characters that `retailerRgx` admits besides letters and digits: the
underscore, the whitespace of `\s`, the hyphen and the ampersand. -/
def isRetailerPunct (c : Char) : Bool :=
  decide (c.toNat = 95) || perlSpace c || decide (c.toNat = 45) || decide (c.toNat = 38)

/-- A validated receipt with two items of price 30000000000000000000.00: each
adds 6000000000000000000, and their sum exceeds the largest `int64`. -/
def overflowReceipt : Receipt :=
  ⟨"Target", "35.35", "2022-01-01", "13:01",
    [⟨"abc", "30000000000000000000.00"⟩, ⟨"abc", "30000000000000000000.00"⟩]⟩

/-- The scenario A receipt with the purchase time 17:00, after 4:00 PM and
before 6:00 PM. -/
def fivePMReceipt : Receipt :=
  ⟨"Target", "35.35", "2022-01-01", "17:00", scenarioA.Items⟩

/-- A request to the server: a submission with its submitter key and the random
source of its identifier, or a query. -/
inductive Request where
  | process (userID : String) (rnd : List Nat) (receipt : Receipt)
  | getPoints (id : String)

/-- The handler of a request. -/
def handle (L : GoLib) (st : ServerState) : Request → HttpResponse × ServerState
  | Request.process userID rnd receipt => ProcessReceipt L st userID rnd receipt
  | Request.getPoints id => GetPoints st id

/-- State of the two maps after a sequence of requests. -/
def runRequests (L : GoLib) (st : ServerState) : List Request → ServerState
  | [] => st
  | q :: rest => runRequests L (handle L st q).2 rest

/-- The identifier that one request returns as a successful submission: the
`Id` of the response of a `ProcessReceipt` call that answers with one; a query
returns none. -/
def returnedBy (L : GoLib) (st : ServerState) : Request → List String
  | Request.process userID rnd receipt =>
    match (ProcessReceipt L st userID rnd receipt).1 with
    | HttpResponse.processed resp => [resp.Id]
    | _ => []
  | Request.getPoints _ => []

/-- The identifiers returned by the successful submissions of a sequence of
requests, read from the responses alone. -/
def returned (L : GoLib) (st : ServerState) : List Request → List String
  | [] => []
  | q :: rest => returnedBy L st q ++ returned L (handle L st q).2 rest

/-- What one request issues: the identifier that a successful submission
returns in its response, with the score that the scorer gives the submitted
receipt at that moment.  Neither is read from the store. -/
def issuedBy (L : GoLib) (st : ServerState) : Request → List (String × Int)
  | Request.process userID rnd receipt =>
    match (ProcessReceipt L st userID rnd receipt).1,
        CalculatePoints_call L receipt (bonusPointsFor st userID) with
    | HttpResponse.processed resp, some nPoints => [(resp.Id, nPoints)]
    | _, _ => []
  | Request.getPoints _ => []

/-- The identifiers returned by the successful submissions of a sequence of
requests, each with the score computed at its submission. -/
def issued (L : GoLib) (st : ServerState) : List Request → List (String × Int)
  | [] => []
  | q :: rest => issuedBy L st q ++ issued L (handle L st q).2 rest

/-- Freshness of the generated identifiers along a sequence of requests: no
successful submission returns an identifier that the store already holds. -/
def freshIds (L : GoLib) (st : ServerState) : List Request → Bool
  | [] => true
  | q :: rest =>
    (match (handle L st q).1 with
     | HttpResponse.processed resp => (st.pointsStore resp.Id).isNone
     | _ => true) && freshIds L (handle L st q).2 rest

/-- A sequence of requests for the witness of the store invariant. -/
def sampleRequests : List Request :=
  [Request.process "" [1] scenarioA, Request.getPoints "NOT A UUID",
   Request.process "" [2] scenarioB, Request.process "" [3] receiptWithoutItems]

/-- Two concurrent submissions with the same submitter key on a fresh server. -/
def twoCalls : ServerState × Handler × Handler :=
  (ServerState.empty, ⟨"alice", [1], scenarioA, HandlerPc.start⟩,
    ⟨"alice", [2], scenarioB, HandlerPc.start⟩)

/-- The schedule in which both calls load the counter before either stores it. -/
def racySchedule : List Bool :=
  [false, true, false, false, true, true]

/-- The schedule in which the first call finishes before the second starts. -/
def serialSchedule : List Bool :=
  [false, false, false, true, true, true]

/-- The price 10^309 with two decimals: a 1, 309 zeros, and `.00`. -/
def hugePrice : String :=
  "1000000000000000000000000000000000000000000000000000000000000000000000000000000000000000000000000000000000000000000000000000000000000000000000000000000000000000000000000000000000000000000000000000000000000000000000000000000000000000000000000000000000000000000000000000000000000000000000000000000000000000000000.00"

/-- A validated receipt with one scored item whose price is 10^309, above the
largest `float64`. -/
def hugePriceReceipt : Receipt :=
  ⟨"Target", "35.35", "2022-01-01", "13:01", [⟨"abc", hugePrice⟩]⟩

/-! ## Auxiliary lemmas -/

theorem wrap64_of_range (x : Int) (h1 : -(2 ^ 63 : Int) ≤ x) (h2 : x < 2 ^ 63) : wrap64 x = x := by
  unfold wrap64
  omega

theorem wrap64_add_left (a b : Int) : wrap64 (wrap64 a + b) = wrap64 (a + b) := by
  unfold wrap64
  omega

theorem wrap64_add_right (a b : Int) : wrap64 (a + wrap64 b) = wrap64 (a + b) := by
  unfold wrap64
  omega

theorem wrap64_range (x : Int) : -(2 ^ 63 : Int) ≤ wrap64 x ∧ wrap64 x < 2 ^ 63 := by
  unfold wrap64
  omega

theorem dollarAmtAfterDigit_iff (s : List Char) :
    dollarAmtAfterDigit s = true ↔
      ∃ (ds : List Char) (a b : Char), (∀ c ∈ ds, perlDigit c = true) ∧
        perlDigit a = true ∧ perlDigit b = true ∧ s = ds ++ ['.', a, b] := by
  induction s with
  | nil =>
    simp [dollarAmtAfterDigit]
  | cons c rest ih =>
    unfold dollarAmtAfterDigit
    by_cases hc : perlDigit c = true
    · simp only [hc, if_true]
      rw [ih]
      constructor
      · rintro ⟨ds, a, b, hds, ha, hb, rfl⟩
        refine ⟨c :: ds, a, b, ?_, ha, hb, rfl⟩
        intro x hx
        rcases List.mem_cons.mp hx with rfl | hx
        · exact hc
        · exact hds x hx
      · rintro ⟨ds, a, b, hds, ha, hb, heq⟩
        cases ds with
        | nil =>
          simp only [List.nil_append, List.cons.injEq] at heq
          obtain ⟨rfl, -⟩ := heq
          simp [perlDigit] at hc
        | cons d ds =>
          simp only [List.cons_append, List.cons.injEq] at heq
          obtain ⟨rfl, rfl⟩ := heq
          exact ⟨ds, a, b, fun x hx => hds x (List.mem_cons_of_mem _ hx), ha, hb, rfl⟩
    · simp only [hc, Bool.false_eq_true, if_false, Bool.and_eq_true, decide_eq_true_eq]
      constructor
      · rintro ⟨h46, hrest⟩
        have hcdot : c = '.' := by
          rw [← Char.ofNat_toNat c, h46]
        subst hcdot
        match rest, hrest with
        | [a, b], hrest =>
          simp only [Bool.and_eq_true] at hrest
          exact ⟨[], a, b, by simp, hrest.1, hrest.2, rfl⟩
      · rintro ⟨ds, a, b, hds, ha, hb, heq⟩
        cases ds with
        | nil =>
          simp only [List.nil_append, List.cons.injEq] at heq
          obtain ⟨rfl, rfl⟩ := heq
          exact ⟨by decide, by simp [ha, hb]⟩
        | cons d ds =>
          simp only [List.cons_append, List.cons.injEq] at heq
          obtain ⟨rfl, -⟩ := heq
          exact absurd (hds c (List.mem_cons_self _ _)) hc

theorem dollarAmtMatch_iff (s : List Char) : dollarAmtMatch s = true ↔ IsDollarAmt s := by
  cases s with
  | nil =>
    simp [dollarAmtMatch, IsDollarAmt]
  | cons c rest =>
    unfold dollarAmtMatch IsDollarAmt
    rw [Bool.and_eq_true, dollarAmtAfterDigit_iff]
    constructor
    · rintro ⟨hc, ds, a, b, hds, ha, hb, rfl⟩
      refine ⟨c :: ds, a, b, by simp, ?_, ha, hb, rfl⟩
      intro x hx
      rcases List.mem_cons.mp hx with rfl | hx
      · exact hc
      · exact hds x hx
    · rintro ⟨ds, a, b, hne, hds, ha, hb, heq⟩
      cases ds with
      | nil => exact absurd rfl hne
      | cons d ds =>
        simp only [List.cons_append, List.cons.injEq] at heq
        obtain ⟨rfl, rfl⟩ := heq
        exact ⟨hds c (List.mem_cons_self _ _), ds, a, b,
          fun x hx => hds x (List.mem_cons_of_mem _ hx), ha, hb, rfl⟩

theorem item_valid_iff (item : Item) :
    item.ValidateProperties = none ↔
      shortDescRgx_MatchString item.ShortDescription = true ∧
        dollarAmtRgx_MatchString item.Price = true := by
  unfold Item.ValidateProperties
  cases shortDescRgx_MatchString item.ShortDescription <;>
    cases dollarAmtRgx_MatchString item.Price <;> simp

theorem validateItems_eq_none_iff (items : List Item) :
    validateItems items = none ↔ ∀ item ∈ items, item.ValidateProperties = none := by
  induction items with
  | nil => simp [validateItems]
  | cons item rest ih =>
    unfold validateItems
    cases h : item.ValidateProperties with
    | none => simp [ih, h]
    | some err => simp [h]

theorem classRgx_iff (cls : Char → Bool) (s : List Char) :
    (!s.isEmpty && s.all cls) = true ↔ (s ≠ [] ∧ ∀ c ∈ s, cls c = true) := by
  cases s <;> simp

theorem receipt_valid_iff (r : Receipt) :
    r.ValidateProperties = none ↔
      r.Items ≠ [] ∧ retailerRgx_MatchString r.Retailer = true ∧
        dollarAmtRgx_MatchString r.Total = true ∧ (parseDate r.PurchaseDate).isSome = true ∧
        (parseTime r.PurchaseTime).isSome = true ∧
        ∀ item ∈ r.Items, item.ValidateProperties = none := by
  unfold Receipt.ValidateProperties
  rw [← validateItems_eq_none_iff]
  have hlen : r.Items.length < 1 ↔ r.Items = [] := by
    cases r.Items <;> simp
  by_cases h0 : r.Items = []
  · simp [h0]
  · have h0' : ¬ r.Items.length < 1 := fun h => h0 (hlen.mp h)
    simp only [h0', if_false, ne_eq, h0, not_false_eq_true, true_and]
    cases retailerRgx_MatchString r.Retailer <;> cases dollarAmtRgx_MatchString r.Total <;>
      cases parseDate r.PurchaseDate <;> cases parseTime r.PurchaseTime <;> simp

theorem add64_add64 (a b c : Int) : add64 (add64 a b) c = add64 a (b + c) := by
  unfold add64
  rw [wrap64_add_left, add_assoc]

theorem perlDigit_toNat {c : Char} (h : perlDigit c = true) : 48 ≤ c.toNat ∧ c.toNat ≤ 57 := by
  simpa [perlDigit] using h

theorem digitVal_lt {c : Char} (h : perlDigit c = true) : digitVal c < 10 := by
  have := perlDigit_toNat h
  unfold digitVal
  omega

theorem splitDot_digits (ds : List Char) (hds : ∀ c ∈ ds, perlDigit c = true) :
    strings_SplitDot ds = [ds] := by
  induction ds with
  | nil => rfl
  | cons c rest ih =>
    have hc := perlDigit_toNat (hds c (List.mem_cons_self _ _))
    have hne : ¬ c.toNat = 46 := by omega
    unfold strings_SplitDot
    rw [if_neg hne, ih (fun x hx => hds x (List.mem_cons_of_mem _ hx))]

theorem splitDot_dollarAmt (ds : List Char) (a b : Char)
    (hds : ∀ c ∈ ds, perlDigit c = true) (ha : perlDigit a = true) (hb : perlDigit b = true) :
    strings_SplitDot (ds ++ ['.', a, b]) = [ds, [a, b]] := by
  induction ds with
  | nil =>
    have hab : strings_SplitDot [a, b] = [[a, b]] := by
      apply splitDot_digits
      intro c hc
      simp only [List.mem_cons, List.mem_singleton, List.not_mem_nil, or_false] at hc
      rcases hc with rfl | rfl
      · exact ha
      · exact hb
    show strings_SplitDot ('.' :: [a, b]) = _
    unfold strings_SplitDot
    rw [if_pos (by decide), hab]
  | cons c rest ih =>
    have hc := perlDigit_toNat (hds c (List.mem_cons_self _ _))
    have hne : ¬ c.toNat = 46 := by omega
    show strings_SplitDot (c :: (rest ++ ['.', a, b])) = _
    unfold strings_SplitDot
    rw [if_neg hne, ih (fun x hx => hds x (List.mem_cons_of_mem _ hx))]

theorem atoi_two_digits (a b : Char) (ha : perlDigit a = true) (hb : perlDigit b = true) :
    strconv_Atoi [a, b] = (((digitVal a * 10 + digitVal b : Nat) : Int), true) := by
  have ha' := perlDigit_toNat ha
  have hda := digitVal_lt ha
  have hdb := digitVal_lt hb
  have h45 : ¬ a.toNat = 45 := by omega
  have h43 : ¬ a.toNat = 43 := by omega
  have hval : decimalValue [a, b] = digitVal a * 10 + digitVal b := by
    simp [decimalValue]
  have hlt : ¬ (2 ^ 63 ≤ digitVal a * 10 + digitVal b) := by
    have : digitVal a * 10 + digitVal b < 100 := by omega
    omega
  unfold strconv_Atoi
  simp [h45, h43, ha, hb, hval]
  omega

theorem totalRule_dollarAmt (total : String) (ds : List Char) (a b : Char)
    (hds : ∀ c ∈ ds, perlDigit c = true) (hne : ds ≠ [])
    (ha : perlDigit a = true) (hb : perlDigit b = true)
    (htotal : total.data = ds ++ ['.', a, b]) (tp : Int) :
    totalRule total tp =
      some (if digitVal a * 10 + digitVal b = 0 then add64 tp 75
        else if digitVal a * 10 + digitVal b = 25 ∨ digitVal a * 10 + digitVal b = 50 ∨
            digitVal a * 10 + digitVal b = 75 then add64 tp 25
        else tp) := by
  have hm : dollarAmtMatch (ds ++ ['.', a, b]) = true :=
    (dollarAmtMatch_iff _).mpr ⟨ds, a, b, hne, hds, ha, hb, rfl⟩
  have hda := digitVal_lt ha
  have hdb := digitVal_lt hb
  have hc : digitVal a * 10 + digitVal b < 100 := by omega
  unfold totalRule dollarAmtRgx_FindString
  rw [htotal]
  simp only [hm, if_true, splitDot_dollarAmt ds a b hds ha hb, List.get?_cons_succ,
    List.get?_cons_zero, atoi_two_digits a b ha hb]
  generalize digitVal a * 10 + digitVal b = cents at hc ⊢
  by_cases h0 : cents = 0
  · subst h0
    simp [add64_add64]
  · have h0' : ¬ ((cents : Int) = 0) := by exact_mod_cast h0
    simp only [h0', h0, if_false]
    have hmod : (cents : Int).tmod 25 = ((cents % 25 : Nat) : Int) := by
      simp [Int.tmod]
    rw [hmod]
    by_cases h25 : cents % 25 = 0
    · have : cents = 25 ∨ cents = 50 ∨ cents = 75 := by omega
      have h25' : ((cents % 25 : Nat) : Int) = 0 := by exact_mod_cast h25
      rw [if_pos h25', if_pos this]
    · have : ¬ (cents = 25 ∨ cents = 50 ∨ cents = 75) := by omega
      have h25' : ¬ (((cents % 25 : Nat) : Int) = 0) := by exact_mod_cast h25
      rw [if_neg h25', if_neg this]

theorem valid_total (r : Receipt) (hv : r.ValidateProperties = none) : IsDollarAmt r.Total.data := by
  have h := (receipt_valid_iff r).mp hv
  exact (dollarAmtMatch_iff _).mp h.2.2.1

theorem calculatePoints_unfold (L : GoLib) (r : Receipt) (hv : r.ValidateProperties = none) :
    ∃ afterTotal, totalRule r.Total (retailerRule L r.Retailer.data 0) = some afterTotal ∧
      r.CalculatePoints L = some (timeRule r.PurchaseTime (dayRule r.PurchaseDate
        (descriptionRule L r.Items (pairRule r.Items afterTotal)))) := by
  obtain ⟨ds, a, b, hne, hds, ha, hb, htotal⟩ := valid_total r hv
  have h := totalRule_dollarAmt r.Total ds a b hds hne ha hb htotal (retailerRule L r.Retailer.data 0)
  refine ⟨_, h, ?_⟩
  unfold Receipt.CalculatePoints
  simp only [h]

theorem calculatePoints_isSome (L : GoLib) (r : Receipt) (hv : r.ValidateProperties = none) :
    ∃ nPoints, r.CalculatePoints L = some nPoints := by
  obtain ⟨_, _, h⟩ := calculatePoints_unfold L r hv
  exact ⟨_, h⟩

theorem parseTime_some (s : String) (t : Nat) (h : parseTime s = some t) :
    ∃ hour min, hour < 24 ∧ min < 60 ∧ t = hour * 60 + min := by
  unfold parseTime at h
  split at h
  · exact absurd h (by simp)
  · rename_i hour v1 _
    split at h
    · exact absurd h (by simp)
    · split at h
      · exact absurd h (by simp)
      · split at h
        · exact absurd h (by simp)
        · rename_i min v3 _
          split at h
          · exact absurd h (by simp)
          · split at h
            · exact absurd h (by simp)
            · refine ⟨hour, min, by omega, by omega, ?_⟩
              exact (Option.some.inj h).symm

theorem hexDigit_not_space (n : Nat) : perlSpace (hexDigit n) = false := by
  unfold hexDigit
  have h : n % 16 < 16 := Nat.mod_lt _ (by decide)
  generalize n % 16 = k at h
  interval_cases k <;> decide

theorem hexEncode_not_space (bs : List Nat) :
    (hexEncode bs).all (fun c => !perlSpace c) = true := by
  induction bs with
  | nil => rfl
  | cons b rest ih =>
    unfold hexEncode
    simp only [List.all_cons, hexDigit_not_space, Bool.not_false, Bool.true_and, ih]

theorem uuid_String_matches (u : List Nat) :
    uuid_String u ≠ "" ∧ idRgx_MatchString (uuid_String u) = true := by
  constructor
  · intro h
    have h2 := congrArg String.data h
    have h3 := congrArg List.length h2
    simp [uuid_String] at h3
  · unfold idRgx_MatchString uuid_String
    simp only [Bool.and_eq_true, Bool.not_eq_true', List.all_append, List.all_cons,
      hexEncode_not_space, Bool.and_true, Bool.true_and]
    refine ⟨?_, ⟨⟨by decide, by decide⟩, by decide⟩, by decide⟩
    simp

theorem syncMap_Store_same (m : String → Option Int) (key : String) (value : Int) :
    syncMap_Store m key value key = some value := by
  simp [syncMap_Store]

theorem syncMap_Store_other (m : String → Option Int) (key k : String) (value : Int)
    (h : k ≠ key) : syncMap_Store m key value k = m k := by
  simp [syncMap_Store, h]

theorem processReceipt_valid (L : GoLib) (st : ServerState) (userID : String) (rnd : List Nat)
    (r : Receipt) (hv : r.ValidateProperties = none) :
    ∃ nPoints, CalculatePoints_call L r (bonusPointsFor st userID) = some nPoints ∧
      ProcessReceipt L st userID rnd r =
        (HttpResponse.processed ⟨uuid_String (uuid_New rnd)⟩,
          ⟨syncMap_Store st.pointsStore (uuid_String (uuid_New rnd)) nPoints,
            syncMap_Store st.bonusMap userID
              (add64 (match st.bonusMap userID with
                | some timesProcessed => timesProcessed
                | none => 0) 1)⟩) := by
  obtain ⟨nPoints, hp⟩ := calculatePoints_isSome L r hv
  refine ⟨nPoints, hp, ?_⟩
  unfold ProcessReceipt
  simp only [hv]
  have hc : CalculatePoints_call L r (bonusPointsFor st userID) = some nPoints := hp
  simp only [hc]

theorem processReceipt_invalid (L : GoLib) (st : ServerState) (userID : String) (rnd : List Nat)
    (r : Receipt) (hv : r.ValidateProperties ≠ none) :
    ProcessReceipt L st userID rnd r = (HttpResponse.text 400 "The receipt is invalid.", st) := by
  unfold ProcessReceipt
  cases h : r.ValidateProperties with
  | none => exact absurd h hv
  | some err => rfl

theorem getPoints_stored (st : ServerState) (id : String) (n : Int)
    (hid : id ≠ "" ∧ idRgx_MatchString id = true) (hst : st.pointsStore id = some n) :
    GetPoints st id = (HttpResponse.points ⟨n⟩, st) := by
  unfold GetPoints
  simp [hid.1, hid.2, hst]

theorem bonusPointsFor_eq (st : ServerState) (userID : String) :
    bonusPointsFor st userID =
      if timesProcessed st userID < 1 then 1000
      else if timesProcessed st userID < 2 then 500
      else if timesProcessed st userID < 3 then 250 else 0 := by
  unfold bonusPointsFor timesProcessed
  generalize (match st.bonusMap userID with
    | some t => t
    | none => 0) = n
  by_cases h1 : n < 1
  · simp [h1]
  · by_cases h2 : n < 2
    · simp [h1, h2]
    · by_cases h3 : n < 3
      · simp [h1, h2, h3]
      · simp [h1, h2, h3]

theorem timesProcessed_step (L : GoLib) (st : ServerState) (s : Submission) (u : String) :
    timesProcessed (ProcessReceipt L st s.userID s.rnd s.receipt).2 u =
      if s.userID = u ∧ s.receipt.ValidateProperties = none then add64 (timesProcessed st u) 1
      else timesProcessed st u := by
  by_cases hv : s.receipt.ValidateProperties = none
  · obtain ⟨nPoints, _, hproc⟩ := processReceipt_valid L st s.userID s.rnd s.receipt hv
    rw [hproc]
    by_cases hu : s.userID = u
    · subst hu
      simp only [timesProcessed, syncMap_Store_same, hv, and_self, if_true]
    · have hu' : u ≠ s.userID := fun h => hu h.symm
      simp only [timesProcessed, syncMap_Store_other _ _ _ _ hu', hu, false_and, if_false]
  · rw [processReceipt_invalid L st s.userID s.rnd s.receipt hv]
    simp [hv]

theorem successCount_cons (u : String) (s : Submission) (rest : List Submission) :
    successCount u (s :: rest) =
      (if s.userID = u ∧ s.receipt.ValidateProperties = none then 1 else 0) +
        successCount u rest := by
  unfold successCount
  rw [List.filter_cons]
  by_cases h : s.userID = u ∧ s.receipt.ValidateProperties = none
  · have hb : (decide (s.userID = u) && decide (s.receipt.ValidateProperties = none)) = true := by
      simp [h.1, h.2]
    rw [if_pos hb, if_pos h, List.length_cons]
    omega
  · have hb : ¬ (decide (s.userID = u) && decide (s.receipt.ValidateProperties = none)) = true := by
      simpa using h
    rw [if_neg hb, if_neg h]
    omega

theorem successCount_le (u : String) (subs : List Submission) :
    successCount u subs ≤ subs.length :=
  List.length_filter_le _ _

theorem timesProcessed_run (L : GoLib) (u : String) (subs : List Submission) :
    ∀ st : ServerState, 0 ≤ timesProcessed st u →
      timesProcessed st u + (subs.length : Int) < 2 ^ 63 →
      timesProcessed (runSubmissions L st subs) u =
        timesProcessed st u + (successCount u subs : Int) := by
  induction subs with
  | nil =>
    intro st _ _
    simp [runSubmissions, successCount]
  | cons s rest ih =>
    intro st h0 hlt
    have hlen : ((s :: rest).length : Int) = (rest.length : Int) + 1 := by
      simp
    rw [hlen] at hlt
    have hstep := timesProcessed_step L st s u
    unfold runSubmissions
    rw [successCount_cons]
    by_cases hc : s.userID = u ∧ s.receipt.ValidateProperties = none
    · rw [if_pos hc] at hstep
      have hadd : add64 (timesProcessed st u) 1 = timesProcessed st u + 1 := by
        unfold add64
        apply wrap64_of_range <;> omega
      rw [hadd] at hstep
      rw [ih _ (by rw [hstep]; omega) (by rw [hstep]; omega), hstep, if_pos hc]
      push_cast
      ring
    · rw [if_neg hc] at hstep
      rw [ih _ (by rw [hstep]; exact h0) (by rw [hstep]; omega), hstep, if_neg hc]
      push_cast
      ring

theorem char_eq_of_toNat (c : Char) (n : Nat) (h : c.toNat = n) : c = Char.ofNat n := by
  rw [← Char.ofNat_toNat c, h]

theorem getLongYear_some (s : List Char) (year : Nat) (rest : List Char) :
    time_getLongYear s = some (year, rest) ↔
      ∃ a b c d, perlDigit a = true ∧ perlDigit b = true ∧ perlDigit c = true ∧
        perlDigit d = true ∧ s = a :: b :: c :: d :: rest ∧
        year = digitVal a * 1000 + digitVal b * 100 + digitVal c * 10 + digitVal d := by
  unfold time_getLongYear
  constructor
  · intro h
    split at h
    · rename_i a b c d rest'
      split at h
      · rename_i hd
        simp only [Bool.and_eq_true] at hd
        simp only [Option.some.injEq, Prod.mk.injEq] at h
        obtain ⟨rfl, rfl⟩ := h
        exact ⟨a, b, c, d, hd.1.1.1, hd.1.1.2, hd.1.2, hd.2, rfl, rfl⟩
      · exact absurd h (by simp)
    · exact absurd h (by simp)
  · rintro ⟨a, b, c, d, ha, hb, hc, hd, rfl, rfl⟩
    have ha' : time_isDigit a = true := ha
    have hb' : time_isDigit b = true := hb
    have hc' : time_isDigit c = true := hc
    have hd' : time_isDigit d = true := hd
    simp [ha', hb', hc', hd']

theorem getnum_fixed_some (s : List Char) (n : Nat) (rest : List Char) :
    time_getnum s true = some (n, rest) ↔
      ∃ a b, perlDigit a = true ∧ perlDigit b = true ∧ s = a :: b :: rest ∧
        n = digitVal a * 10 + digitVal b := by
  unfold time_getnum
  constructor
  · intro h
    split at h
    · exact absurd h (by simp)
    · rename_i a r1
      split at h
      · exact absurd h (by simp)
      · rename_i ha
        split at h
        · exact absurd h (by simp)
        · rename_i b r2
          split at h
          · rename_i hb
            simp only [Option.some.injEq, Prod.mk.injEq] at h
            obtain ⟨rfl, rfl⟩ := h
            refine ⟨a, b, ?_, hb, rfl, rfl⟩
            simpa using ha
          · exact absurd h (by simp)
  · rintro ⟨a, b, ha, hb, rfl, rfl⟩
    have ha' : time_isDigit a = true := ha
    have hb' : time_isDigit b = true := hb
    simp [ha', hb']

theorem skip_some (lit : Nat) (s rest : List Char) :
    time_skip lit s = some rest ↔ ∃ c, c.toNat = lit ∧ s = c :: rest := by
  unfold time_skip
  constructor
  · intro h
    split at h
    · exact absurd h (by simp)
    · rename_i c r
      split at h
      · rename_i hc
        simp only [Option.some.injEq] at h
        subst h
        exact ⟨c, hc, rfl⟩
      · exact absurd h (by simp)
  · rintro ⟨c, hc, rfl⟩
    simp [hc]

theorem parseDate_some_iff (s : String) : (∃ d, parseDate s = some d) ↔ IsDateText s.data := by
  unfold parseDate IsDateText
  constructor
  · rintro ⟨d, h⟩
    split at h
    · exact absurd h (by simp)
    · rename_i year v1 hy
      split at h
      · exact absurd h (by simp)
      · rename_i v2 hs1
        split at h
        · exact absurd h (by simp)
        · rename_i month v3 hm
          split at h
          · exact absurd h (by simp)
          · rename_i hmr
            split at h
            · exact absurd h (by simp)
            · rename_i v4 hs2
              split at h
              · exact absurd h (by simp)
              · rename_i day v5 hd
                split at h
                · exact absurd h (by simp)
                · rename_i hv5
                  split at h
                  · exact absurd h (by simp)
                  · rename_i hdr
                    obtain ⟨y1, y2, y3, y4, hy1, hy2, hy3, hy4, hs, rfl⟩ :=
                      (getLongYear_some _ _ _).mp hy
                    obtain ⟨c1, hc1, rfl⟩ := (skip_some _ _ _).mp hs1
                    obtain ⟨m1, m2, hm1, hm2, rfl, rfl⟩ := (getnum_fixed_some _ _ _).mp hm
                    obtain ⟨c2, hc2, rfl⟩ := (skip_some _ _ _).mp hs2
                    obtain ⟨d1, d2, hd1, hd2, rfl, rfl⟩ := (getnum_fixed_some _ _ _).mp hd
                    have hv5' : v5 = [] := by
                      cases v5 with
                      | nil => rfl
                      | cons x xs => simp at hv5
                    subst hv5'
                    have e1 : c1 = '-' := char_eq_of_toNat c1 45 hc1
                    have e2 : c2 = '-' := char_eq_of_toNat c2 45 hc2
                    subst e1 e2
                    refine ⟨y1, y2, y3, y4, m1, m2, d1, d2, hy1, hy2, hy3, hy4, hm1, hm2, hd1, hd2,
                      hs, ?_, ?_, ?_, ?_⟩ <;> omega
  · rintro ⟨y1, y2, y3, y4, m1, m2, d1, d2, hy1, hy2, hy3, hy4, hm1, hm2, hd1, hd2, hs, h1, h2,
      h3, h4⟩
    rw [hs]
    have hy := (getLongYear_some (y1 :: y2 :: y3 :: y4 :: '-' :: m1 :: m2 :: '-' :: [d1, d2]) _
      _).mpr ⟨y1, y2, y3, y4, hy1, hy2, hy3, hy4, rfl, rfl⟩
    have hs1 := (skip_some 45 ('-' :: m1 :: m2 :: '-' :: [d1, d2]) _).mpr ⟨'-', by decide, rfl⟩
    have hm := (getnum_fixed_some (m1 :: m2 :: '-' :: [d1, d2]) _ _).mpr
      ⟨m1, m2, hm1, hm2, rfl, rfl⟩
    have hs2 := (skip_some 45 ('-' :: [d1, d2]) _).mpr ⟨'-', by decide, rfl⟩
    have hd := (getnum_fixed_some [d1, d2] _ _).mpr ⟨d1, d2, hd1, hd2, rfl, rfl⟩
    have hmr : ¬ (digitVal m1 * 10 + digitVal m2 = 0 ∨ 12 < digitVal m1 * 10 + digitVal m2) := by
      omega
    have hdr : ¬ (digitVal d1 * 10 + digitVal d2 < 1 ∨
        time_daysIn (digitVal m1 * 10 + digitVal m2)
          (digitVal y1 * 1000 + digitVal y2 * 100 + digitVal y3 * 10 + digitVal y4) <
          digitVal d1 * 10 + digitVal d2) := by
      omega
    simp only [hy, hs1, hm, hs2, hd, hmr, hdr, if_false, List.isEmpty_nil, Bool.not_true,
      Bool.false_eq_true]
    exact ⟨_, rfl⟩

theorem getnum_free_some (s : List Char) (n : Nat) (rest : List Char)
    (h : time_getnum s false = some (n, rest)) :
    (∃ a b, perlDigit a = true ∧ perlDigit b = true ∧ s = a :: b :: rest ∧
        n = digitVal a * 10 + digitVal b) ∨
      (∃ a, perlDigit a = true ∧ s = a :: rest ∧ n = digitVal a) := by
  unfold time_getnum at h
  split at h
  · exact absurd h (by simp)
  · rename_i a r1
    split at h
    · exact absurd h (by simp)
    · rename_i ha
      have ha' : perlDigit a = true := by simpa [time_isDigit, perlDigit] using ha
      split at h
      · simp only [Bool.false_eq_true, if_false, Option.some.injEq, Prod.mk.injEq] at h
        obtain ⟨rfl, rfl⟩ := h
        exact Or.inr ⟨a, ha', rfl, rfl⟩
      · rename_i b r2
        split at h
        · rename_i hb
          simp only [Option.some.injEq, Prod.mk.injEq] at h
          obtain ⟨rfl, rfl⟩ := h
          exact Or.inl ⟨a, b, ha', hb, rfl, rfl⟩
        · simp only [Bool.false_eq_true, if_false, Option.some.injEq, Prod.mk.injEq] at h
          obtain ⟨rfl, rfl⟩ := h
          exact Or.inr ⟨a, ha', rfl, rfl⟩

theorem parseTime_some_iff (s : String) : (∃ t, parseTime s = some t) ↔ IsTimeText s.data := by
  unfold parseTime IsTimeText
  constructor
  · rintro ⟨t, h⟩
    split at h
    · exact absurd h (by simp)
    · rename_i hour v1 hh
      split at h
      · exact absurd h (by simp)
      · rename_i hhr
        split at h
        · exact absurd h (by simp)
        · rename_i v2 hs1
          split at h
          · exact absurd h (by simp)
          · rename_i min v3 hm
            split at h
            · exact absurd h (by simp)
            · rename_i hmr
              split at h
              · exact absurd h (by simp)
              · rename_i hv3
                obtain ⟨c1, hc1, rfl⟩ := (skip_some _ _ _).mp hs1
                obtain ⟨a, b, ha, hb, rfl, rfl⟩ := (getnum_fixed_some _ _ _).mp hm
                have hv3' : v3 = [] := by
                  cases v3 with
                  | nil => rfl
                  | cons x xs => simp at hv3
                subst hv3'
                have e1 : c1 = ':' := char_eq_of_toNat c1 58 hc1
                subst e1
                rcases getnum_free_some _ _ _ hh with ⟨x, y, hx, hy, hs, rfl⟩ | ⟨x, hx, hs, rfl⟩
                · refine ⟨[x, y], a, b, Or.inr rfl, ?_, ha, hb, hs, ?_, by omega⟩
                  · intro c hc
                    simp only [List.mem_cons, List.mem_singleton, List.not_mem_nil, or_false] at hc
                    rcases hc with rfl | rfl
                    · exact hx
                    · exact hy
                  · simp only [decimalValue, List.foldl_cons, List.foldl_nil]
                    omega
                · refine ⟨[x], a, b, Or.inl rfl, ?_, ha, hb, hs, ?_, by omega⟩
                  · intro c hc
                    simp only [List.mem_singleton] at hc
                    subst hc
                    exact hx
                  · simp only [decimalValue, List.foldl_cons, List.foldl_nil]
                    omega
  · rintro ⟨h, a, b, hlen, hdig, ha, hb, hs, hhour, hmin⟩
    rw [hs]
    have hm := (getnum_fixed_some [a, b] _ _).mpr ⟨a, b, ha, hb, rfl, rfl⟩
    have hs1 := (skip_some 58 (':' :: [a, b]) _).mpr ⟨':', by decide, rfl⟩
    have hmr : ¬ (60 ≤ digitVal a * 10 + digitVal b) := by omega
    rcases hlen with hlen | hlen
    · match h, hlen, hdig, hhour with
      | [x], _, hdig, hhour =>
        have hx : time_isDigit x = true := hdig x (List.mem_singleton_self _)
        have hg : time_getnum ([x] ++ [':', a, b]) false = some (digitVal x, ':' :: [a, b]) := by
          have hc : time_isDigit ':' = false := by decide
          simp [time_getnum, hx, hc]
        simp only [decimalValue, List.foldl_cons, List.foldl_nil] at hhour
        have hhr : ¬ (24 ≤ digitVal x) := by omega
        simp only [hg, hs1, hm, hmr, hhr, if_false, List.isEmpty_nil, Bool.not_true,
          Bool.false_eq_true]
        exact ⟨_, rfl⟩
    · match h, hlen, hdig, hhour with
      | [x, y], _, hdig, hhour =>
        have hx : time_isDigit x = true := hdig x (List.mem_cons_self _ _)
        have hy : time_isDigit y = true := hdig y (by simp)
        have hg : time_getnum ([x, y] ++ [':', a, b]) false =
            some (digitVal x * 10 + digitVal y, ':' :: [a, b]) := by
          simp [time_getnum, hx, hy]
        simp only [decimalValue, List.foldl_cons, List.foldl_nil] at hhour
        have hhr : ¬ (24 ≤ digitVal x * 10 + digitVal y) := by omega
        simp only [hg, hs1, hm, hmr, hhr, if_false, List.isEmpty_nil, Bool.not_true,
          Bool.false_eq_true]
        exact ⟨_, rfl⟩

theorem parseTime_some_form (s : String) (t : Nat) (h : parseTime s = some t) :
    ∃ (hd : List Char) (a b : Char),
      (hd.length = 1 ∨ hd.length = 2) ∧ (∀ c ∈ hd, perlDigit c = true) ∧
      perlDigit a = true ∧ perlDigit b = true ∧ s.data = hd ++ [':', a, b] ∧
      decimalValue hd < 24 ∧ digitVal a * 10 + digitVal b < 60 ∧
      t = decimalValue hd * 60 + (digitVal a * 10 + digitVal b) := by
  unfold parseTime at h
  split at h
  · exact absurd h (by simp)
  · rename_i hour v1 hh
    split at h
    · exact absurd h (by simp)
    · rename_i hhr
      split at h
      · exact absurd h (by simp)
      · rename_i v2 hs1
        split at h
        · exact absurd h (by simp)
        · rename_i min v3 hm
          split at h
          · exact absurd h (by simp)
          · rename_i hmr
            split at h
            · exact absurd h (by simp)
            · rename_i hv3
              have ht := (Option.some.inj h).symm
              obtain ⟨c1, hc1, rfl⟩ := (skip_some _ _ _).mp hs1
              obtain ⟨a, b, ha, hb, rfl, rfl⟩ := (getnum_fixed_some _ _ _).mp hm
              have hv3' : v3 = [] := by
                cases v3 with
                | nil => rfl
                | cons x xs => simp at hv3
              subst hv3'
              have e1 : c1 = ':' := char_eq_of_toNat c1 58 hc1
              subst e1
              rcases getnum_free_some _ _ _ hh with ⟨x, y, hx, hy, hs, rfl⟩ | ⟨x, hx, hs, rfl⟩
              · have hval : decimalValue [x, y] = digitVal x * 10 + digitVal y := by
                  simp only [decimalValue, List.foldl_cons, List.foldl_nil]
                  omega
                refine ⟨[x, y], a, b, Or.inr rfl, ?_, ha, hb, hs, ?_, by omega, ?_⟩
                · intro c hc
                  simp only [List.mem_cons, List.mem_singleton, List.not_mem_nil, or_false] at hc
                  rcases hc with rfl | rfl
                  · exact hx
                  · exact hy
                · rw [hval]
                  omega
                · rw [hval]
                  exact ht
              · have hval : decimalValue [x] = digitVal x := by
                  simp only [decimalValue, List.foldl_cons, List.foldl_nil]
                  omega
                refine ⟨[x], a, b, Or.inl rfl, ?_, ha, hb, hs, ?_, by omega, ?_⟩
                · intro c hc
                  simp only [List.mem_singleton] at hc
                  subst hc
                  exact hx
                · rw [hval]
                  omega
                · rw [hval]
                  exact ht

/-! ## Lemmas on the binary64 model -/

theorem bitLen_zero (fuel : Nat) : bitLen fuel 0 = 0 := by
  cases fuel <;> simp [bitLen]

theorem bitLen_spec : ∀ (fuel n : Nat), n ≤ fuel →
    n < 2 ^ bitLen fuel n ∧ (0 < n → 2 ^ bitLen fuel n ≤ 2 * n) := by
  intro fuel
  induction fuel with
  | zero =>
    intro n hn
    have h0 : n = 0 := by omega
    subst h0
    simp [bitLen]
  | succ fuel ih =>
    intro n hn
    by_cases h0 : n = 0
    · subst h0
      simp [bitLen]
    · have hhalf : n / 2 ≤ fuel := by omega
      obtain ⟨h1, h2⟩ := ih (n / 2) hhalf
      have hb : bitLen (fuel + 1) n = bitLen fuel (n / 2) + 1 := by
        simp [bitLen, h0]
      rw [hb, pow_succ]
      constructor
      · omega
      · intro _
        by_cases hz : n / 2 = 0
        · rw [hz, bitLen_zero]
          omega
        · have := h2 (Nat.pos_of_ne_zero hz)
          omega

theorem bits_spec (n : Nat) (hn : 0 < n) : n < 2 ^ bits n ∧ 2 ^ bits n ≤ 2 * n :=
  ⟨(bitLen_spec n n le_rfl).1, (bitLen_spec n n le_rfl).2 hn⟩

theorem two_zpow_nonneg (e : Int) (he : 0 ≤ e) : (2 : ℚ) ^ e = ((2 ^ e.toNat : Nat) : ℚ) := by
  obtain ⟨n, rfl⟩ := Int.eq_ofNat_of_zero_le he
  rw [zpow_natCast]
  simp

theorem two_zpow_neg (e : Int) (he : e < 0) :
    (2 : ℚ) ^ e = 1 / ((2 ^ (-e).toNat : Nat) : ℚ) := by
  obtain ⟨n, rfl⟩ := Int.exists_eq_neg_ofNat he.le
  rw [zpow_neg, zpow_natCast]
  simp

theorem scaleBy_pos (num den : Nat) (e : Int) (hden : 0 < den) : 0 < (scaleBy num den e).2 := by
  unfold scaleBy
  split
  · exact Nat.mul_pos hden (pow_pos (by decide) _)
  · exact hden

theorem scaleBy_val (num den : Nat) (e : Int) (hden : 0 < den) :
    ((scaleBy num den e).1 : ℚ) / ((scaleBy num den e).2 : ℚ) = (num : ℚ) / den / (2 : ℚ) ^ e := by
  have hd : (den : ℚ) ≠ 0 := by exact_mod_cast hden.ne'
  unfold scaleBy
  split
  · rename_i he
    rw [two_zpow_nonneg e he]
    push_cast
    rw [div_div]
  · rename_i he
    rw [two_zpow_neg e (by omega)]
    push_cast
    field_simp

theorem roundHalfEven_err (n d : Nat) (hd : 0 < d) :
    |(roundHalfEven n d : ℚ) - (n : ℚ) / d| ≤ 1 / 2 := by
  have hdq : (0 : ℚ) < d := by exact_mod_cast hd
  have hn : (n : ℚ) = (d : ℚ) * ((n / d : Nat) : ℚ) + ((n % d : Nat) : ℚ) := by
    exact_mod_cast (Nat.div_add_mod n d).symm
  have hr : ((n % d : Nat) : ℚ) < d := by exact_mod_cast Nat.mod_lt n hd
  have hr0 : (0 : ℚ) ≤ ((n % d : Nat) : ℚ) := by positivity
  have hdiv : (n : ℚ) / d = ((n / d : Nat) : ℚ) + ((n % d : Nat) : ℚ) / d := by
    rw [hn]
    field_simp
    ring
  unfold roundHalfEven
  rw [hdiv, abs_le]
  split
  · rename_i hup
    have h2 : (d : ℚ) ≤ 2 * ((n % d : Nat) : ℚ) := by
      rcases hup with h | h
      · exact_mod_cast h.le
      · exact_mod_cast h.1.ge
    push_cast
    constructor
    · have : ((n % d : Nat) : ℚ) / d ≤ 1 := by
        rw [div_le_one hdq]
        exact hr.le
      linarith
    · have : (1 : ℚ) / 2 ≤ ((n % d : Nat) : ℚ) / d := by
        rw [le_div_iff₀ hdq]
        linarith
      linarith
  · rename_i hup
    have h2 : 2 * ((n % d : Nat) : ℚ) ≤ d := by
      have : ¬ d < 2 * (n % d) := fun h => hup (Or.inl h)
      exact_mod_cast Nat.le_of_not_lt this
    constructor
    · have : ((n % d : Nat) : ℚ) / d ≤ 1 / 2 := by
        rw [div_le_iff₀ hdq]
        linarith
      linarith
    · have : (0 : ℚ) ≤ ((n % d : Nat) : ℚ) / d := by positivity
      linarith

theorem binExponent_spec (num den : Nat) (hnum : 0 < num) (hden : 0 < den) :
    ∃ e : Int, binExponent num den = max e (-1074) ∧
      (2 : ℚ) ^ (e + 52) ≤ (num : ℚ) / den ∧ (num : ℚ) / den < (2 : ℚ) ^ (e + 53) := by
  obtain ⟨ha1, ha2⟩ := bits_spec num hnum
  obtain ⟨hb1, hb2⟩ := bits_spec den hden
  have hnq : (0 : ℚ) < num := by exact_mod_cast hnum
  have hdq : (0 : ℚ) < den := by exact_mod_cast hden
  have hA : (0 : ℚ) < (2 : ℚ) ^ bits num := by positivity
  have hB : (0 : ℚ) < (2 : ℚ) ^ bits den := by positivity
  have ha1q : (num : ℚ) < (2 : ℚ) ^ bits num := by exact_mod_cast ha1
  have ha2q : (2 : ℚ) ^ bits num ≤ 2 * num := by exact_mod_cast ha2
  have hb1q : (den : ℚ) < (2 : ℚ) ^ bits den := by exact_mod_cast hb1
  have hb2q : (2 : ℚ) ^ bits den ≤ 2 * den := by exact_mod_cast hb2
  have hpow : ∀ k : Int, (2 : ℚ) ^ (((bits num : Int) - (bits den : Int) - 53) + k) =
      (2 : ℚ) ^ bits num / (2 : ℚ) ^ bits den * (2 : ℚ) ^ (k - 53) := by
    intro k
    rw [show ((bits num : Int) - (bits den : Int) - 53) + k =
      (bits num : Int) - (bits den : Int) + (k - 53) by ring, zpow_add₀ (by norm_num),
      zpow_sub₀ (by norm_num), zpow_natCast, zpow_natCast]
  have hlow : (2 : ℚ) ^ bits num / (2 : ℚ) ^ bits den * (1 / 2) < (num : ℚ) / den := by
    rw [div_mul_eq_mul_div, div_lt_div_iff₀ hB hdq]
    nlinarith [mul_nonneg (sub_nonneg.2 ha2q) hdq.le, mul_pos (sub_pos.2 hb1q) hnq]
  have hupp : (num : ℚ) / den < (2 : ℚ) ^ bits num / (2 : ℚ) ^ bits den * 2 := by
    rw [div_mul_eq_mul_div, div_lt_div_iff₀ hdq hB]
    nlinarith [mul_nonneg (sub_nonneg.2 hb2q) hnq.le, mul_pos (sub_pos.2 ha1q) hdq]
  have h52 : (2 : ℚ) ^ ((52 : Int) - 53) = 1 / 2 := by norm_num
  have h53 : (2 : ℚ) ^ ((53 : Int) - 53) = 1 := by norm_num
  have h54 : (2 : ℚ) ^ ((54 : Int) - 53) = 2 := by norm_num
  have hs2 := scaleBy_pos num den ((bits num : Int) - (bits den : Int) - 53) hden
  have hsv := scaleBy_val num den ((bits num : Int) - (bits den : Int) - 53) hden
  have hs2q : (0 : ℚ) < ((scaleBy num den ((bits num : Int) - (bits den : Int) - 53)).2 : ℚ) := by
    exact_mod_cast hs2
  have hE : (0 : ℚ) < (2 : ℚ) ^ ((bits num : Int) - (bits den : Int) - 53) := by positivity
  unfold binExponent
  by_cases hc : 2 ^ 53 * (scaleBy num den ((bits num : Int) - (bits den : Int) - 53)).2 ≤
      (scaleBy num den ((bits num : Int) - (bits den : Int) - 53)).1
  · refine ⟨(bits num : Int) - (bits den : Int) - 53 + 1, by simp only [if_pos hc], ?_, ?_⟩
    · have hcq : (2 : ℚ) ^ 53 ≤
          ((scaleBy num den ((bits num : Int) - (bits den : Int) - 53)).1 : ℚ) /
            ((scaleBy num den ((bits num : Int) - (bits den : Int) - 53)).2 : ℚ) := by
        rw [le_div_iff₀ hs2q]
        exact_mod_cast hc
      rw [hsv, le_div_iff₀ hE] at hcq
      rw [show (bits num : Int) - (bits den : Int) - 53 + 1 + 52 =
        ((bits num : Int) - (bits den : Int) - 53) + 53 by ring, zpow_add₀ (by norm_num)]
      have h53' : (2 : ℚ) ^ (53 : Int) = (2 : ℚ) ^ 53 := by norm_num
      rw [h53', mul_comm]
      exact hcq
    · rw [show (bits num : Int) - (bits den : Int) - 53 + 1 + 53 =
        ((bits num : Int) - (bits den : Int) - 53) + 54 by ring, hpow, h54]
      exact hupp
  · refine ⟨(bits num : Int) - (bits den : Int) - 53, by simp only [if_neg hc], ?_, ?_⟩
    · rw [hpow, h52]
      exact hlow.le
    · have hcq : ((scaleBy num den ((bits num : Int) - (bits den : Int) - 53)).1 : ℚ) /
            ((scaleBy num den ((bits num : Int) - (bits den : Int) - 53)).2 : ℚ) < (2 : ℚ) ^ 53 := by
        rw [div_lt_iff₀ hs2q]
        exact_mod_cast Nat.lt_of_not_le hc
      rw [hsv, div_lt_iff₀ hE] at hcq
      rw [zpow_add₀ (by norm_num)]
      have h53' : (2 : ℚ) ^ (53 : Int) = (2 : ℚ) ^ 53 := by norm_num
      rw [h53', mul_comm]
      exact hcq

theorem roundNE_spec (num den : Nat) (hnum : 0 < num) (hden : 0 < den)
    (hlo : (2 : ℚ) ^ (-30 : Int) ≤ (num : ℚ) / den) (hhi : (num : ℚ) / den < (2 : ℚ) ^ (60 : Int)) :
    ∃ (m : Nat) (e : Int), roundNE false num den = F64.finite false m e ∧
      (2 : ℚ) ^ (e + 52) ≤ (num : ℚ) / den ∧ (num : ℚ) / den < (2 : ℚ) ^ (e + 53) ∧
      |(m : ℚ) - (num : ℚ) / den / (2 : ℚ) ^ e| ≤ 1 / 2 := by
  obtain ⟨e, he, h1, h2⟩ := binExponent_spec num den hnum hden
  have hlt1 : (2 : ℚ) ^ (-30 : Int) < (2 : ℚ) ^ (e + 53) := lt_of_le_of_lt hlo h2
  have hlt2 : (2 : ℚ) ^ (e + 52) < (2 : ℚ) ^ (60 : Int) := lt_of_le_of_lt h1 hhi
  rw [zpow_lt_zpow_iff_right₀ (by norm_num)] at hlt1 hlt2
  have hmax : max e (-1074) = e := max_eq_left (by omega)
  rw [hmax] at he
  refine ⟨roundHalfEven (scaleBy num den e).1 (scaleBy num den e).2, e, ?_, h1, h2, ?_⟩
  · unfold roundNE
    have hn0 : ¬ num = 0 := by omega
    have hover : ¬ (971 < e ∨ (e = 971 ∧
        2 ^ 53 ≤ roundHalfEven (scaleBy num den e).1 (scaleBy num den e).2)) := by
      omega
    simp only [hn0, if_false, he, hover]
  · rw [← scaleBy_val num den e hden]
    exact roundHalfEven_err _ _ (scaleBy_pos num den e hden)

theorem round_rel_err (x : ℚ) (m : Nat) (e : Int)
    (h1 : (2 : ℚ) ^ (e + 52) ≤ x) (h3 : |(m : ℚ) - x / (2 : ℚ) ^ e| ≤ 1 / 2) :
    |(m : ℚ) * (2 : ℚ) ^ e - x| ≤ x / 2 ^ 53 := by
  have hE : (0 : ℚ) < (2 : ℚ) ^ e := by positivity
  rw [zpow_add₀ (by norm_num)] at h1
  have h52 : (2 : ℚ) ^ (52 : Int) = 2 ^ 52 := by norm_num
  rw [h52] at h1
  have hx : x = x / (2 : ℚ) ^ e * (2 : ℚ) ^ e := by field_simp
  generalize (2 : ℚ) ^ e = E at *
  generalize x / E = w at *
  rw [abs_le] at h3 ⊢
  obtain ⟨h3a, h3b⟩ := h3
  have hhalf : E / 2 ≤ x / 2 ^ 53 := by
    rw [div_le_div_iff₀ (by norm_num) (by norm_num)]
    nlinarith
  have e1 : (m : ℚ) * E - x = ((m : ℚ) - w) * E := by rw [hx]; ring
  rw [e1]
  constructor
  · nlinarith
  · nlinarith

theorem round_exact (x : ℚ) (m : Nat) (e : Int) (k : Nat)
    (h1 : (2 : ℚ) ^ (e + 52) ≤ x) (h2 : x < (2 : ℚ) ^ (e + 53))
    (h3 : |(m : ℚ) - x / (2 : ℚ) ^ e| ≤ 1 / 2)
    (hk : (k : ℚ) ≤ x) (hx53 : x < 2 ^ 53) (hclose : (x - k) * 2 ^ 54 ≤ k) :
    (m : ℚ) * (2 : ℚ) ^ e = k := by
  have h53 : (2 : ℚ) ^ (53 : Int) = 2 ^ 53 := by norm_num
  have hlt : (2 : ℚ) ^ (e + 52) < (2 : ℚ) ^ (53 : Int) := by
    rw [h53]
    exact lt_of_le_of_lt h1 hx53
  rw [zpow_lt_zpow_iff_right₀ (by norm_num)] at hlt
  obtain ⟨j, rfl⟩ := Int.exists_eq_neg_ofNat (show e ≤ 0 by omega)
  have hJ : (0 : ℚ) < (2 : ℚ) ^ j := by positivity
  have hz : (2 : ℚ) ^ (-(j : Int)) = 1 / (2 : ℚ) ^ j := by
    rw [zpow_neg, zpow_natCast]
    simp
  have hz2 : (2 : ℚ) ^ (-(j : Int) + 53) = 2 ^ 53 / (2 : ℚ) ^ j := by
    rw [zpow_add₀ (by norm_num), hz, h53]
    ring
  rw [hz2, lt_div_iff₀ hJ] at h2
  rw [hz] at h3 ⊢
  have hdiv : x / (1 / (2 : ℚ) ^ j) = x * (2 : ℚ) ^ j := by field_simp
  rw [hdiv, abs_le] at h3
  obtain ⟨h3a, h3b⟩ := h3
  have hkx : (k : ℚ) * (2 : ℚ) ^ j ≤ x * (2 : ℚ) ^ j := by nlinarith
  have hd : (x - k) * (2 : ℚ) ^ j * 2 ^ 54 ≤ k * (2 : ℚ) ^ j := by nlinarith
  have hd0 : 0 ≤ (x - k) * (2 : ℚ) ^ j := by nlinarith
  have hnear : |((m : Int) - ((k * 2 ^ j : Nat) : Int))| < 1 := by
    have : |(m : ℚ) - ((k * 2 ^ j : Nat) : ℚ)| < 1 := by
      push_cast
      rw [abs_lt]
      constructor
      · nlinarith
      · nlinarith
    exact_mod_cast this
  rw [Int.abs_lt_one_iff] at hnear
  have hm : m = k * 2 ^ j := by omega
  rw [hm]
  push_cast
  field_simp

theorem ceil_int64 (L : GoLib) (m : Nat) (e : Int) (hv : (m : ℚ) * (2 : ℚ) ^ e ≤ 2 ^ 62) :
    ∃ K : Nat, int64OfFloat L (math_Ceil (F64.finite false m e)) = (K : Int) ∧
      (K : ℚ) - 1 < (m : ℚ) * (2 : ℚ) ^ e ∧ (m : ℚ) * (2 : ℚ) ^ e ≤ K := by
  by_cases he : 0 ≤ e
  · refine ⟨m * 2 ^ e.toNat, ?_, ?_, ?_⟩
    · have hlt : ((m * 2 ^ e.toNat : Nat) : Int) < 2 ^ 63 := by
        have : ((m * 2 ^ e.toNat : Nat) : ℚ) ≤ 2 ^ 62 := by
          rw [two_zpow_nonneg e he] at hv
          exact_mod_cast hv
        have h2 : (m * 2 ^ e.toNat : Nat) ≤ 2 ^ 62 := by exact_mod_cast this
        omega
      have hge : -(2 ^ 63 : Int) ≤ ((m * 2 ^ e.toNat : Nat) : Int) := by omega
      simp only [math_Ceil, if_pos he, int64OfFloat, Bool.false_eq_true, if_false, hge, hlt,
        and_self, if_true]
    · rw [two_zpow_nonneg e he]
      push_cast
      linarith
    · rw [two_zpow_nonneg e he]
      push_cast
      exact le_rfl
  · have hD : 0 < 2 ^ (-e).toNat := pow_pos (by decide) _
    have hDq : (0 : ℚ) < ((2 ^ (-e).toNat : Nat) : ℚ) := by exact_mod_cast hD
    have hdm := Nat.div_add_mod (m + 2 ^ (-e).toNat - 1) (2 ^ (-e).toNat)
    have hml := Nat.mod_lt (m + 2 ^ (-e).toNat - 1) hD
    have hceil : math_Ceil (F64.finite false m e) =
        F64.finite false ((m + 2 ^ (-e).toNat - 1) / 2 ^ (-e).toNat) 0 := by
      simp [math_Ceil, he]
    have hint : ∀ K : Nat, K < 2 ^ 63 → int64OfFloat L (F64.finite false K 0) = (K : Int) := by
      intro K hK
      have hlt : ((K : Nat) : Int) < 9223372036854775808 := by omega
      have hge : -(9223372036854775808 : Int) ≤ ((K : Nat) : Int) := by omega
      simp [int64OfFloat, hlt, hge]
    rw [hceil, two_zpow_neg e (by omega)]
    rw [two_zpow_neg e (by omega)] at hv
    generalize 2 ^ (-e).toNat = D at *
    generalize (m + D - 1) / D = K at *
    generalize (m + D - 1) % D = r at *
    have hsum : D * K + r + 1 = m + D := by omega
    have hsumq : (D : ℚ) * K + r + 1 = m + D := by exact_mod_cast hsum
    have hrq : (r : ℚ) + 1 ≤ D := by exact_mod_cast hml
    have hr0 : (0 : ℚ) ≤ r := by positivity
    have hlow : (K : ℚ) - 1 < (m : ℚ) * (1 / (D : ℚ)) := by
      rw [mul_one_div, lt_div_iff₀ hDq]
      nlinarith
    have hupp : (m : ℚ) * (1 / (D : ℚ)) ≤ K := by
      rw [mul_one_div, div_le_iff₀ hDq]
      nlinarith
    have hKlt : (K : ℚ) < 2 ^ 63 := by linarith
    have hKlt' : K < 2 ^ 63 := by exact_mod_cast hKlt
    exact ⟨K, hint K hKlt', hlow, hupp⟩

theorem scaleBy_fst_pos (num den : Nat) (e : Int) (hnum : 0 < num) : 0 < (scaleBy num den e).1 := by
  unfold scaleBy
  split
  · exact hnum
  · exact Nat.mul_pos hnum (pow_pos (by decide) _)

theorem f64_const_0_2_eq : f64_const_0_2 = F64.finite false 7205759403792794 (-55) := by
  decide

theorem mul_const_val (m1 : Nat) (e1 : Int) :
    ((scaleBy (m1 * 7205759403792794) 1 (-(e1 + -55))).1 : ℚ) /
        ((scaleBy (m1 * 7205759403792794) 1 (-(e1 + -55))).2 : ℚ) =
      (m1 : ℚ) * (2 : ℚ) ^ e1 * (7205759403792794 / 2 ^ 55) := by
  rw [scaleBy_val _ _ _ one_pos]
  have h55 : (2 : ℚ) ^ (55 : Int) = 2 ^ 55 := by norm_num
  have hE : (2 : ℚ) ^ e1 ≠ 0 := by positivity
  rw [show -(e1 + -55) = 55 - e1 by ring, zpow_sub₀ (by norm_num), h55]
  push_cast
  field_simp
  ring

theorem fifth_of_cents (L : GoLib) (c : Nat) (hc : c < 10 ^ 15) :
    int64OfFloat L (math_Ceil ((roundNE false c 100).mul f64_const_0_2)) =
      (((c + 499) / 500 : Nat) : Int) := by
  by_cases hc0 : c = 0
  · subst hc0
    rfl
  have hpos : 0 < c := Nat.pos_of_ne_zero hc0
  have hcq1 : (1 : ℚ) ≤ c := by exact_mod_cast hpos
  have hcq2 : (c : ℚ) < 10 ^ 15 := by exact_mod_cast hc
  have hx1 : ((c : ℚ) / ((100 : Nat) : ℚ)) = (c : ℚ) / 100 := by norm_num
  obtain ⟨m1, e1, hP, h1a, h1b, h1c⟩ := roundNE_spec c 100 hpos (by decide)
    (by rw [hx1]; norm_num; linarith) (by rw [hx1]; norm_num; linarith)
  rw [hx1] at h1a h1b h1c
  have hE1 : (0 : ℚ) < (2 : ℚ) ^ e1 := by positivity
  have hm1 : 0 < m1 := by
    rcases Nat.eq_zero_or_pos m1 with h0 | h
    · exfalso
      subst h0
      have h52 : (2 : ℚ) ^ (52 : Int) = 2 ^ 52 := by norm_num
      rw [zpow_add₀ (by norm_num), h52] at h1a
      rw [abs_le] at h1c
      have : (2 : ℚ) ^ 52 ≤ (c : ℚ) / 100 / (2 : ℚ) ^ e1 := by
        rw [le_div_iff₀ hE1]
        linarith
      norm_num at h1c
      linarith
    · exact h
  rw [hP, f64_const_0_2_eq]
  simp only [F64.mul, Bool.xor_false]
  have hval := mul_const_val m1 e1
  have hn2 : 0 < (scaleBy (m1 * 7205759403792794) 1 (-(e1 + -55))).1 :=
    scaleBy_fst_pos _ _ _ (Nat.mul_pos hm1 (by decide))
  have hd2 : 0 < (scaleBy (m1 * 7205759403792794) 1 (-(e1 + -55))).2 :=
    scaleBy_pos _ _ _ one_pos
  generalize (scaleBy (m1 * 7205759403792794) 1 (-(e1 + -55))).1 = n2 at *
  generalize (scaleBy (m1 * 7205759403792794) 1 (-(e1 + -55))).2 = d2 at *
  have herr1 := round_rel_err _ m1 e1 h1a h1c
  rw [abs_le] at herr1
  obtain ⟨herr1a, herr1b⟩ := herr1
  have hylo : (2 : ℚ) ^ (-30 : Int) ≤ (n2 : ℚ) / d2 := by
    rw [hval]
    norm_num
    linarith
  have hyhi : (n2 : ℚ) / d2 < (2 : ℚ) ^ (60 : Int) := by
    rw [hval]
    norm_num
    linarith
  obtain ⟨m2, e2, hR, h2a, h2b, h2c⟩ := roundNE_spec n2 d2 hn2 hd2 hylo hyhi
  have herr2 := round_rel_err _ m2 e2 h2a h2c
  rw [abs_le] at herr2
  obtain ⟨herr2a, herr2b⟩ := herr2
  rw [hR]
  obtain ⟨K, hK, hKlo, hKhi⟩ := ceil_int64 L m2 e2 (by rw [hval] at herr2b; linarith)
  rw [hK]
  have hdm := Nat.div_add_mod c 500
  have hml := Nat.mod_lt c (show 0 < 500 by decide)
  by_cases hmult : c % 500 = 0
  · -- exact multiple of five dollars
    have hck : c = 500 * (c / 500) := by omega
    generalize c / 500 = k at *
    have hckq : (c : ℚ) = 500 * (k : ℚ) := by exact_mod_cast hck
    have hv1 : (m1 : ℚ) * (2 : ℚ) ^ e1 = ((5 * k : Nat) : ℚ) := by
      apply round_exact _ m1 e1 (5 * k) h1a h1b h1c
      · push_cast
        linarith
      · linarith
      · push_cast
        linarith
    have hv2 : (m2 : ℚ) * (2 : ℚ) ^ e2 = (k : ℚ) := by
      apply round_exact _ m2 e2 k h2a h2b h2c
      · rw [hval, hv1]
        push_cast
        linarith
      · rw [hval, hv1]
        push_cast
        linarith
      · rw [hval, hv1]
        push_cast
        linarith
    rw [hv2] at hKlo hKhi
    have hKk : K = k := by
      have h1 : K < k + 1 := by exact_mod_cast (show (K : ℚ) < (k : ℚ) + 1 by linarith)
      have h2 : k ≤ K := by exact_mod_cast hKhi
      omega
    have : (c + 499) / 500 = k := by omega
    rw [this, hKk]
  · have hf1 : 1 ≤ c % 500 := by omega
    have hck : c = 500 * (c / 500) + c % 500 := by omega
    generalize c / 500 = k at *
    generalize c % 500 = f at *
    have hckq : (c : ℚ) = 500 * (k : ℚ) + f := by exact_mod_cast hck
    have hf1q : (1 : ℚ) ≤ f := by exact_mod_cast hf1
    have hf2q : (f : ℚ) ≤ 499 := by
      have : f ≤ 499 := by omega
      exact_mod_cast this
    have hk0 : (0 : ℚ) ≤ k := by positivity
    rw [hval] at herr2a herr2b
    have hlow : (k : ℚ) < (m2 : ℚ) * (2 : ℚ) ^ e2 := by linarith
    have hupp : (m2 : ℚ) * (2 : ℚ) ^ e2 ≤ (k : ℚ) + 1 := by linarith
    have hKk : K = k + 1 := by
      have h1 : k < K := by exact_mod_cast (show (k : ℚ) < (K : ℚ) by linarith)
      have h2 : K < k + 2 := by exact_mod_cast (show (K : ℚ) < (k : ℚ) + 2 by linarith)
      omega
    have : (c + 499) / 500 = k + 1 := by omega
    rw [this, hKk]

theorem exactFifth_eq (c : Nat) : exactFifth c = (((c + 499) / 500 : Nat) : Int) := by
  unfold exactFifth
  rw [Int.ceil_eq_iff]
  have hdm := Nat.div_add_mod (c + 499) 500
  have hml := Nat.mod_lt (c + 499) (show 0 < 500 by decide)
  generalize (c + 499) / 500 = q at *
  generalize (c + 499) % 500 = r at *
  have hq : (500 : ℚ) * q + r = c + 499 := by exact_mod_cast hdm
  have hr : (r : ℚ) ≤ 499 := by
    have : r ≤ 499 := by omega
    exact_mod_cast this
  have hr0 : (0 : ℚ) ≤ r := by positivity
  push_cast
  constructor
  · rw [lt_div_iff₀ (by norm_num)]
    linarith
  · rw [div_le_iff₀ (by norm_num)]
    linarith

theorem priceFifth_valid (L : GoLib) (price : String) (hp : dollarAmtMatch price.data = true)
    (hc : priceCents price < 10 ^ 15) : priceFifth L price = exactFifth (priceCents price) := by
  rw [exactFifth_eq]
  unfold priceFifth strconv_ParseFloat
  rw [if_pos hp]
  exact fifth_of_cents L (priceCents price) hc

theorem shortDescClass_ascii (c : Char) (h : shortDescClass c = true) : c.toNat < 128 := by
  simp only [shortDescClass, perlWord, perlDigit, perlSpace, Bool.or_eq_true,
    decide_eq_true_eq] at h
  omega

theorem utf8Len_ascii (s : List Char) (h : ∀ c ∈ s, c.toNat < 128) : utf8Len s = s.length := by
  induction s with
  | nil => rfl
  | cons c rest ih =>
    have hc : c.toNat < 128 := h c (List.mem_cons_self _ _)
    have hr := ih (fun x hx => h x (List.mem_cons_of_mem _ hx))
    unfold utf8Len at hr ⊢
    simp only [List.map_cons, List.sum_cons, List.length_cons, hr, runeLen]
    rw [if_pos (by omega)]
    omega

theorem trimSpace_subset (s : List Char) : ∀ c ∈ strings_TrimSpace s, c ∈ s := by
  intro c hc
  unfold strings_TrimSpace at hc
  rw [List.mem_reverse] at hc
  have h1 := (List.dropWhile_sublist unicode_IsSpace).subset hc
  rw [List.mem_reverse] at h1
  exact (List.dropWhile_sublist unicode_IsSpace).subset h1

theorem trimmed_len_valid (desc : String) (h : shortDescRgx_MatchString desc = true) :
    utf8Len (strings_TrimSpace desc.data) = (strings_TrimSpace desc.data).length := by
  have hall := ((classRgx_iff shortDescClass desc.data).mp h).2
  apply utf8Len_ascii
  intro c hc
  exact shortDescClass_ascii c (hall c (trimSpace_subset _ c hc))

theorem descriptionRule_spec (L : GoLib) (items : List Item)
    (hvalid : ∀ item ∈ items, item.ValidateProperties = none)
    (hbound : ∀ item ∈ items, priceCents item.Price < 10 ^ 15) :
    ∀ tp : Int, -(2 ^ 63 : Int) ≤ tp → tp < 2 ^ 63 →
      descriptionRule L items tp = wrap64 (tp + descriptionPointsSpec items) := by
  induction items with
  | nil =>
    intro tp h1 h2
    simp only [descriptionRule, descriptionPointsSpec, add_zero]
    exact (wrap64_of_range tp h1 h2).symm
  | cons item rest ih =>
    intro tp h1 h2
    have hv := (item_valid_iff item).mp (hvalid item (List.mem_cons_self _ _))
    have hb := hbound item (List.mem_cons_self _ _)
    have ih' := ih (fun x hx => hvalid x (List.mem_cons_of_mem _ hx))
      (fun x hx => hbound x (List.mem_cons_of_mem _ hx))
    unfold descriptionRule descriptionPointsSpec add64
    rw [trimmed_len_valid _ hv.1, priceFifth_valid L _ hv.2 hb]
    split
    · rw [ih' _ (wrap64_range _).1 (wrap64_range _).2, wrap64_add_left, add_assoc]
    · rw [ih' _ h1 h2, zero_add]

/-! ## Lemmas on the remaining rules -/

theorem wrap64_add_nonneg (tp x : Int) (h1 : -(2 ^ 63 : Int) ≤ tp) (h2 : 0 ≤ x)
    (h3 : tp + x < 2 ^ 63) : wrap64 (tp + x) = tp + x :=
  wrap64_of_range _ (by omega) h3

theorem retailerRule_count (L : GoLib) (s : List Char) :
    ∀ tp : Int, -(2 ^ 63 : Int) ≤ tp → tp < 2 ^ 63 →
      retailerRule L s tp =
        wrap64 (tp + ((s.filter (fun c => unicode_IsDigit L c || unicode_IsLetter L c)).length
          : Nat)) := by
  induction s with
  | nil =>
    intro tp h1 h2
    simp only [retailerRule, List.filter_nil, List.length_nil, Nat.cast_zero, add_zero]
    exact (wrap64_of_range tp h1 h2).symm
  | cons c rest ih =>
    intro tp h1 h2
    unfold retailerRule
    rw [List.filter_cons]
    by_cases hc : (unicode_IsDigit L c || unicode_IsLetter L c) = true
    · rw [if_pos hc, if_pos hc]
      unfold add64
      rw [ih _ (wrap64_range _).1 (wrap64_range _).2, wrap64_add_left, List.length_cons]
      push_cast
      congr 1
      ring
    · rw [if_neg hc, if_neg hc, ih _ h1 h2]

theorem retailerClass_alnum (L : GoLib) (c : Char) (h : retailerClass c = true) :
    (unicode_IsDigit L c || unicode_IsLetter L c) = isAsciiAlnum c ∧
      isAsciiAlnum c = !isRetailerPunct c := by
  have hascii : c.toNat < 128 := by
    simp only [retailerClass, perlWord, perlDigit, perlSpace, Bool.or_eq_true,
      decide_eq_true_eq] at h
    omega
  constructor
  · simp only [unicode_IsDigit, unicode_IsLetter, if_pos hascii, isAsciiAlnum, Bool.or_assoc]
  · simp only [retailerClass, perlWord, perlDigit, perlSpace, Bool.or_eq_true,
      decide_eq_true_eq] at h
    by_cases ha : isAsciiAlnum c = true
    · rw [ha]
      simp only [isAsciiAlnum, Bool.or_eq_true, decide_eq_true_eq] at ha
      have : isRetailerPunct c = false := by
        simp only [isRetailerPunct, perlSpace, Bool.or_eq_false_iff, decide_eq_false_iff_not]
        omega
      rw [this]
      rfl
    · have ha' : isAsciiAlnum c = false := by simpa using ha
      rw [ha']
      simp only [isAsciiAlnum, Bool.or_eq_false_iff, decide_eq_false_iff_not] at ha'
      have : isRetailerPunct c = true := by
        simp only [isRetailerPunct, perlSpace, Bool.or_eq_true, decide_eq_true_eq]
        omega
      rw [this]
      rfl

theorem filter_length_compl (p q : Char → Bool) (s : List Char)
    (h : ∀ c ∈ s, p c = !q c) : (s.filter p).length + (s.filter q).length = s.length := by
  induction s with
  | nil => rfl
  | cons c rest ih =>
    have hc := h c (List.mem_cons_self _ _)
    have ih' := ih (fun x hx => h x (List.mem_cons_of_mem _ hx))
    rw [List.filter_cons, List.filter_cons]
    cases hq : q c
    · rw [hq] at hc
      simp only [Bool.not_false] at hc
      simp only [hc, if_true, Bool.false_eq_true, if_false, List.length_cons]
      omega
    · rw [hq] at hc
      simp only [Bool.not_true] at hc
      simp only [hc, if_true, Bool.false_eq_true, if_false, List.length_cons]
      omega

theorem filter_length_congr (p q : Char → Bool) (s : List Char)
    (h : ∀ c ∈ s, p c = q c) : (s.filter p).length = (s.filter q).length := by
  rw [List.filter_congr h]

theorem parseDate_some_form (s : String) (d : Date) (h : parseDate s = some d) :
    ∃ y1 y2 y3 y4 m1 m2 d1 d2 : Char,
      s.data = [y1, y2, y3, y4, '-', m1, m2, '-', d1, d2] ∧
      perlDigit d1 = true ∧ perlDigit d2 = true ∧
      d = ⟨digitVal y1 * 1000 + digitVal y2 * 100 + digitVal y3 * 10 + digitVal y4,
        digitVal m1 * 10 + digitVal m2, digitVal d1 * 10 + digitVal d2⟩ := by
  unfold parseDate at h
  split at h
  · exact absurd h (by simp)
  · rename_i year v1 hy
    split at h
    · exact absurd h (by simp)
    · rename_i v2 hs1
      split at h
      · exact absurd h (by simp)
      · rename_i month v3 hm
        split at h
        · exact absurd h (by simp)
        · split at h
          · exact absurd h (by simp)
          · rename_i v4 hs2
            split at h
            · exact absurd h (by simp)
            · rename_i day v5 hd
              split at h
              · exact absurd h (by simp)
              · rename_i hv5
                split at h
                · exact absurd h (by simp)
                · obtain ⟨y1, y2, y3, y4, _, _, _, _, hs, rfl⟩ := (getLongYear_some _ _ _).mp hy
                  obtain ⟨c1, hc1, rfl⟩ := (skip_some _ _ _).mp hs1
                  obtain ⟨m1, m2, _, _, rfl, rfl⟩ := (getnum_fixed_some _ _ _).mp hm
                  obtain ⟨c2, hc2, rfl⟩ := (skip_some _ _ _).mp hs2
                  obtain ⟨d1, d2, hd1, hd2, rfl, rfl⟩ := (getnum_fixed_some _ _ _).mp hd
                  have hv5' : v5 = [] := by
                    cases v5 with
                    | nil => rfl
                    | cons x xs => simp at hv5
                  subst hv5'
                  have e1 : c1 = '-' := char_eq_of_toNat c1 45 hc1
                  have e2 : c2 = '-' := char_eq_of_toNat c2 45 hc2
                  subst e1 e2
                  exact ⟨y1, y2, y3, y4, m1, m2, d1, d2, hs, hd1, hd2, (Option.some.inj h).symm⟩

theorem pairRule_eq (items : List Item) (tp : Int) :
    pairRule items tp = wrap64 (tp + 5 * ((items.length / 2 : Nat) : Int)) := by
  unfold pairRule add64
  rw [wrap64_add_right]

theorem dayRule_eq (s : String) (d : Date) (h : parseDate s = some d) (tp : Int) :
    dayRule s tp = if d.day % 2 = 1 then add64 tp 6 else tp := by
  unfold dayRule
  simp only [h]
  by_cases hodd : d.day % 2 = 1
  · rw [if_pos hodd, if_pos (by omega)]
  · rw [if_neg hodd, if_neg (by omega)]

theorem exactFifth_bound (c : Nat) (hc : c < 10 ^ 15) :
    0 ≤ exactFifth c ∧ exactFifth c ≤ 2000000000000 := by
  rw [exactFifth_eq]
  have h : (c + 499) / 500 ≤ 2000000000000 := by omega
  constructor
  · positivity
  · exact_mod_cast h

theorem descriptionPointsSpec_bound (items : List Item)
    (hbound : ∀ item ∈ items, priceCents item.Price < 10 ^ 15) :
    0 ≤ descriptionPointsSpec items ∧
      descriptionPointsSpec items ≤ 2000000000000 * (items.length : Int) := by
  induction items with
  | nil => simp [descriptionPointsSpec]
  | cons item rest ih =>
    have hb := exactFifth_bound _ (hbound item (List.mem_cons_self _ _))
    have ih' := ih (fun x hx => hbound x (List.mem_cons_of_mem _ hx))
    unfold descriptionPointsSpec
    rw [List.length_cons]
    push_cast
    split
    · constructor <;> omega
    · constructor <;> omega

theorem dayRule_cases (s : String) (tp : Int) : dayRule s tp = add64 tp 6 ∨ dayRule s tp = tp := by
  unfold dayRule
  dsimp only
  split
  · exact Or.inl rfl
  · exact Or.inr rfl

theorem timeRule_cases (s : String) (tp : Int) :
    timeRule s tp = add64 tp 10 ∨ timeRule s tp = tp := by
  unfold timeRule
  dsimp only
  split
  · exact Or.inl rfl
  · exact Or.inr rfl

theorem add64_small (tp x : Int) (h1 : 0 ≤ tp) (h2 : 0 ≤ x) (h3 : tp + x < 2 ^ 63) :
    add64 tp x = tp + x := by
  unfold add64
  exact wrap64_add_nonneg tp x (by omega) h2 h3

theorem calculatePoints_nonneg (L : GoLib) (r : Receipt) (hv : r.ValidateProperties = none)
    (hprices : ∀ item ∈ r.Items, priceCents item.Price < 10 ^ 15)
    (hitems : r.Items.length ≤ 1000000) (hret : r.Retailer.data.length ≤ 10 ^ 18) :
    ∃ n : Int, r.CalculatePoints L = some n ∧ 0 ≤ n := by
  obtain ⟨afterTotal, htot, hcalc⟩ := calculatePoints_unfold L r hv
  have hvalid := (receipt_valid_iff r).mp hv
  -- retailer
  have hcnt : (r.Retailer.data.filter
      (fun c => unicode_IsDigit L c || unicode_IsLetter L c)).length ≤ r.Retailer.data.length :=
    List.length_filter_le _ _
  have h0 := retailerRule_count L r.Retailer.data 0 (by norm_num) (by norm_num)
  rw [zero_add] at h0
  generalize (r.Retailer.data.filter
      (fun c => unicode_IsDigit L c || unicode_IsLetter L c)).length = cnt at hcnt h0
  have hcnt' : (cnt : Int) ≤ 10 ^ 18 := by
    have : cnt ≤ 10 ^ 18 := le_trans hcnt hret
    exact_mod_cast this
  have h0' : retailerRule L r.Retailer.data 0 = (cnt : Int) := by
    rw [h0]
    apply wrap64_of_range <;> omega
  rw [h0'] at htot
  -- total
  obtain ⟨ds, a, b, hne, hds, ha, hb, htotal⟩ := valid_total r hv
  have hform := totalRule_dollarAmt r.Total ds a b hds hne ha hb htotal (cnt : Int)
  rw [htot] at hform
  have hcnt0 : (0 : Int) ≤ (cnt : Int) := Int.natCast_nonneg _
  have h75 : add64 (cnt : Int) 75 = cnt + 75 :=
    add64_small (cnt : Int) 75 hcnt0 (by decide) (by omega)
  have h25 : add64 (cnt : Int) 25 = cnt + 25 :=
    add64_small (cnt : Int) 25 hcnt0 (by decide) (by omega)
  have hafter : 0 ≤ afterTotal ∧ afterTotal ≤ 10 ^ 18 + 75 := by
    have := Option.some.inj hform
    rw [this]
    split
    · rw [h75]
      constructor <;> omega
    · split
      · rw [h25]
        constructor <;> omega
      · constructor <;> omega
  -- pairs
  have hpair := pairRule_eq r.Items afterTotal
  have hlen : ((r.Items.length / 2 : Nat) : Int) ≤ 500000 := by
    have : r.Items.length / 2 ≤ 500000 := by omega
    exact_mod_cast this
  have hlen0 : (0 : Int) ≤ ((r.Items.length / 2 : Nat) : Int) := Int.natCast_nonneg _
  have hpair' : pairRule r.Items afterTotal = afterTotal + 5 * ((r.Items.length / 2 : Nat) : Int) := by
    rw [hpair]
    apply wrap64_of_range <;> omega
  -- descriptions
  have hspec := descriptionPointsSpec_bound r.Items hprices
  have hlenI : (r.Items.length : Int) ≤ 1000000 := by exact_mod_cast hitems
  have hdesc := descriptionRule_spec L r.Items hvalid.2.2.2.2.2 hprices
    (pairRule r.Items afterTotal) (by rw [hpair']; omega) (by rw [hpair']; omega)
  have hdesc' : descriptionRule L r.Items (pairRule r.Items afterTotal) =
      pairRule r.Items afterTotal + descriptionPointsSpec r.Items := by
    rw [hdesc]
    apply wrap64_of_range <;> (rw [hpair']; omega)
  have hD : 0 ≤ descriptionRule L r.Items (pairRule r.Items afterTotal) ∧
      descriptionRule L r.Items (pairRule r.Items afterTotal) ≤ 4 * 10 ^ 18 := by
    rw [hdesc', hpair']
    constructor <;> omega
  generalize descriptionRule L r.Items (pairRule r.Items afterTotal) = tpD at hD hcalc
  -- day
  have hDay : 0 ≤ dayRule r.PurchaseDate tpD ∧ dayRule r.PurchaseDate tpD ≤ 4 * 10 ^ 18 + 6 := by
    rcases dayRule_cases r.PurchaseDate tpD with h | h
    · rw [h, add64_small tpD 6 hD.1 (by decide) (by omega)]
      constructor <;> omega
    · rw [h]
      constructor <;> omega
  generalize dayRule r.PurchaseDate tpD = tpDay at hDay hcalc
  refine ⟨_, hcalc, ?_⟩
  rcases timeRule_cases r.PurchaseTime tpDay with h | h
  · rw [h, add64_small tpDay 10 hDay.1 (by decide) (by omega)]
    omega
  · rw [h]
    exact hDay.1

theorem validateItems_append (pre rest : List Item)
    (hpre : ∀ i ∈ pre, i.ValidateProperties = none) :
    validateItems (pre ++ rest) = validateItems rest := by
  induction pre with
  | nil => rfl
  | cons i pre ih =>
    have hi := hpre i (List.mem_cons_self _ _)
    have hstep : validateItems (i :: (pre ++ rest)) = validateItems (pre ++ rest) := by
      conv_lhs => unfold validateItems
      simp only [hi]
    show validateItems (i :: (pre ++ rest)) = _
    rw [hstep]
    exact ih (fun x hx => hpre x (List.mem_cons_of_mem _ hx))

theorem validateItems_first (pre post : List Item) (item : Item) (err : ValidationError)
    (hpre : ∀ i ∈ pre, i.ValidateProperties = none) (hitem : item.ValidateProperties = some err) :
    validateItems (pre ++ item :: post) = some err := by
  rw [validateItems_append pre _ hpre]
  conv_lhs => unfold validateItems
  simp only [hitem]

theorem idRgx_false_iff (id : String) :
    idRgx_MatchString id = false ↔ (id = "" ∨ ∃ c ∈ id.data, perlSpace c = true) := by
  unfold idRgx_MatchString
  constructor
  · intro h
    by_cases he : id.data = []
    · left
      exact String.ext he
    · right
      have hne : id.data.isEmpty = false := by
        cases hd : id.data with
        | nil => exact absurd hd he
        | cons x xs => rfl
      rw [hne] at h
      simp only [Bool.not_false, Bool.true_and] at h
      by_contra hcon
      push_neg at hcon
      have : id.data.all (fun c => !perlSpace c) = true := by
        rw [List.all_eq_true]
        intro c hc
        have := hcon c hc
        simp [this]
      rw [this] at h
      exact absurd h (by decide)
  · rintro (h | ⟨c, hc, hs⟩)
    · subst h
      rfl
    · have : id.data.all (fun c => !perlSpace c) = false := by
        rw [List.all_eq_false]
        exact ⟨c, hc, by simp [hs]⟩
      rw [this]
      simp

theorem verboseRetailerLoop_eq (L : GoLib) (s : List Char) :
    ∀ acc : Int, verboseRetailerLoop L s acc = retailerRule L s acc := by
  induction s with
  | nil =>
    intro acc
    rfl
  | cons c rest ih =>
    intro acc
    unfold verboseRetailerLoop retailerRule
    exact ih _

theorem verboseDescriptionLoop_eq (L : GoLib) (items : List Item) :
    ∀ tp : Int, verboseDescriptionLoop L items tp = descriptionRule L items tp := by
  induction items with
  | nil =>
    intro tp
    rfl
  | cons item rest ih =>
    intro tp
    unfold verboseDescriptionLoop descriptionRule priceFifth
    exact ih _

theorem retailerRule_range (L : GoLib) (s : List Char) :
    -(2 ^ 63 : Int) ≤ retailerRule L s 0 ∧ retailerRule L s 0 < 2 ^ 63 := by
  rw [retailerRule_count L s 0 (by norm_num) (by norm_num)]
  exact wrap64_range _

theorem getPoints_state (st : ServerState) (id : String) : (GetPoints st id).2 = st := by
  unfold GetPoints
  split
  · rfl
  · split
    · rfl
    · split <;> rfl

theorem getPoints_not_processed (st : ServerState) (id : String) (resp : ProcessReceiptResponse) :
    (GetPoints st id).1 ≠ HttpResponse.processed resp := by
  unfold GetPoints
  split
  · exact fun h => HttpResponse.noConfusion h
  · split
    · exact fun h => HttpResponse.noConfusion h
    · split <;> exact fun h => HttpResponse.noConfusion h

theorem store_step (L : GoLib) (st : ServerState) (q : Request)
    (hfresh : ∀ resp, (handle L st q).1 = HttpResponse.processed resp →
      st.pointsStore resp.Id = none) (id : String) (n : Int) :
    (handle L st q).2.pointsStore id = some n ↔
      st.pointsStore id = some n ∨ (id, n) ∈ issuedBy L st q := by
  cases q with
  | getPoints qid =>
    have hs : (handle L st (Request.getPoints qid)).2 = st := getPoints_state st qid
    have hi : issuedBy L st (Request.getPoints qid) = [] := rfl
    rw [hs, hi]
    simp
  | process userID rnd r =>
    by_cases hv : r.ValidateProperties = none
    · obtain ⟨nPoints, hp, hproc⟩ := processReceipt_valid L st userID rnd r hv
      have hh : handle L st (Request.process userID rnd r) =
          (HttpResponse.processed ⟨uuid_String (uuid_New rnd)⟩,
            ⟨syncMap_Store st.pointsStore (uuid_String (uuid_New rnd)) nPoints,
              syncMap_Store st.bonusMap userID
                (add64 (match st.bonusMap userID with
                  | some timesProcessed => timesProcessed
                  | none => 0) 1)⟩) := hproc
      have hnone := hfresh ⟨uuid_String (uuid_New rnd)⟩ (by rw [hh])
      have hi : issuedBy L st (Request.process userID rnd r) =
          [(uuid_String (uuid_New rnd), nPoints)] := by
        simp only [issuedBy, hproc, hp]
      rw [hi, hh]
      simp only [List.mem_singleton, Prod.mk.injEq]
      by_cases hid : id = uuid_String (uuid_New rnd)
      · subst hid
        rw [syncMap_Store_same, hnone]
        simp only [Option.some.injEq, false_or, true_and, reduceCtorEq]
        exact eq_comm
      · rw [syncMap_Store_other _ _ _ _ hid]
        simp [hid]
    · have hproc : ProcessReceipt L st userID rnd r =
          (HttpResponse.text 400 "The receipt is invalid.", st) :=
        processReceipt_invalid L st userID rnd r hv
      have hh : handle L st (Request.process userID rnd r) =
          (HttpResponse.text 400 "The receipt is invalid.", st) := hproc
      have hi : issuedBy L st (Request.process userID rnd r) = [] := by
        simp only [issuedBy, hproc]
      rw [hi, hh]
      simp

theorem returnedBy_iff (L : GoLib) (st : ServerState) (q : Request) (id : String) :
    id ∈ returnedBy L st q ↔ ∃ n : Int, (id, n) ∈ issuedBy L st q := by
  cases q with
  | getPoints qid =>
    have hr : returnedBy L st (Request.getPoints qid) = [] := rfl
    have hi : issuedBy L st (Request.getPoints qid) = [] := rfl
    rw [hr, hi]
    simp
  | process userID rnd r =>
    by_cases hv : r.ValidateProperties = none
    · obtain ⟨nPoints, hp, hproc⟩ := processReceipt_valid L st userID rnd r hv
      have hr : returnedBy L st (Request.process userID rnd r) =
          [uuid_String (uuid_New rnd)] := by
        simp only [returnedBy, hproc]
      have hi : issuedBy L st (Request.process userID rnd r) =
          [(uuid_String (uuid_New rnd), nPoints)] := by
        simp only [issuedBy, hproc, hp]
      rw [hr, hi]
      simp only [List.mem_singleton, Prod.mk.injEq]
      constructor
      · intro h
        exact ⟨nPoints, h, rfl⟩
      · rintro ⟨_, h, _⟩
        exact h
    · have hproc : ProcessReceipt L st userID rnd r =
          (HttpResponse.text 400 "The receipt is invalid.", st) :=
        processReceipt_invalid L st userID rnd r hv
      have hr : returnedBy L st (Request.process userID rnd r) = [] := by
        simp only [returnedBy, hproc]
      have hi : issuedBy L st (Request.process userID rnd r) = [] := by
        simp only [issuedBy, hproc]
      rw [hr, hi]
      simp

theorem returned_iff (L : GoLib) (reqs : List Request) :
    ∀ (st : ServerState) (id : String),
      id ∈ returned L st reqs ↔ ∃ n : Int, (id, n) ∈ issued L st reqs := by
  induction reqs with
  | nil =>
    intro st id
    simp [returned, issued]
  | cons q rest ih =>
    intro st id
    unfold returned issued
    simp only [List.mem_append, ih, returnedBy_iff, exists_or]

theorem store_run (L : GoLib) (reqs : List Request) :
    ∀ st : ServerState, freshIds L st reqs = true → ∀ (id : String) (n : Int),
      (runRequests L st reqs).pointsStore id = some n ↔
        st.pointsStore id = some n ∨ (id, n) ∈ issued L st reqs := by
  induction reqs with
  | nil =>
    intro st _ id n
    simp [runRequests, issued]
  | cons q rest ih =>
    intro st hfresh id n
    unfold freshIds at hfresh
    rw [Bool.and_eq_true] at hfresh
    have hq : ∀ resp, (handle L st q).1 = HttpResponse.processed resp →
        st.pointsStore resp.Id = none := by
      intro resp hresp
      have h1 := hfresh.1
      rw [hresp] at h1
      simpa using h1
    unfold runRequests issued
    rw [ih _ hfresh.2 id n, store_step L st q hq id n, List.mem_append, or_assoc]

theorem getPoints_absent (st : ServerState) (id : String) (h : st.pointsStore id = none) :
    GetPoints st id = (HttpResponse.text 404 "No receipt found for that ID.", st) := by
  unfold GetPoints
  split
  · rfl
  · split
    · rfl
    · rw [h]

theorem getPoints_congr (st1 st2 : ServerState) (id : String)
    (h : st1.pointsStore id = st2.pointsStore id) :
    (GetPoints st1 id).1 = (GetPoints st2 id).1 := by
  unfold GetPoints
  rw [h]
  split
  · rfl
  · split
    · rfl
    · split <;> rfl

set_option maxRecDepth 100000 in
theorem sampleRequests_fresh : freshIds sampleLib ServerState.empty sampleRequests = true := by
  decide

theorem handler_alone (L : GoLib) (st : ServerState) (userID : String) (rnd : List Nat)
    (r : Receipt) (hv : r.ValidateProperties = none) :
    (runSchedule L (st, ⟨userID, rnd, r, HandlerPc.start⟩, ⟨userID, rnd, r, HandlerPc.rejected⟩)
        [false, false, false]).1 = (ProcessReceipt L st userID rnd r).2 := by
  obtain ⟨nPoints, hp, hproc⟩ := processReceipt_valid L st userID rnd r hv
  rw [hproc]
  simp only [runSchedule, Handler.step, hv, hp]

/-! ## Lemmas on the discarded conversion errors -/

theorem roundNE_finite (num den : Nat) (hnum : 0 < num) (hden : 0 < den)
    (hlo : (2 : ℚ) ^ (-1022 : Int) ≤ (num : ℚ) / den)
    (hhi : (num : ℚ) / den < (2 : ℚ) ^ (1023 : Int)) :
    ∃ (m : Nat) (e : Int), roundNE false num den = F64.finite false m e := by
  obtain ⟨e, he, h1, h2⟩ := binExponent_spec num den hnum hden
  have hlt1 : (2 : ℚ) ^ (-1022 : Int) < (2 : ℚ) ^ (e + 53) := lt_of_le_of_lt hlo h2
  have hlt2 : (2 : ℚ) ^ (e + 52) < (2 : ℚ) ^ (1023 : Int) := lt_of_le_of_lt h1 hhi
  rw [zpow_lt_zpow_iff_right₀ (by norm_num)] at hlt1 hlt2
  have hmax : max e (-1074) = e := max_eq_left (by omega)
  rw [hmax] at he
  refine ⟨roundHalfEven (scaleBy num den e).1 (scaleBy num den e).2, e, ?_⟩
  unfold roundNE
  have hn0 : ¬ num = 0 := by omega
  have hover : ¬ (971 < e ∨ (e = 971 ∧
      2 ^ 53 ≤ roundHalfEven (scaleBy num den e).1 (scaleBy num den e).2)) := by
    omega
  simp only [hn0, if_false, he, hover]

set_option exponentiation.threshold 2000 in
theorem parseFloat_no_range_error (price : String)
    (hc : priceCents price < 100 * 2 ^ 1023) : strconv_ParseFloat_errRange price = false := by
  unfold strconv_ParseFloat_errRange
  by_cases hm : dollarAmtMatch price.data = true
  · rw [hm, Bool.true_and]
    change (match roundNE false (priceCents price) 100 with
      | F64.inf _ => true
      | _ => false) = false
    by_cases h0 : priceCents price = 0
    · rw [h0]
      rfl
    · have hpos : 0 < priceCents price := Nat.pos_of_ne_zero h0
      have hcq1 : (1 : ℚ) ≤ (priceCents price : ℚ) := by exact_mod_cast hpos
      have hcq2 : (priceCents price : ℚ) < 100 * 2 ^ 1023 := by exact_mod_cast hc
      have hx : ((priceCents price : ℚ) / ((100 : Nat) : ℚ)) = (priceCents price : ℚ) / 100 := by
        norm_num
      have hlo : (2 : ℚ) ^ (-1022 : Int) ≤ (priceCents price : ℚ) / ((100 : Nat) : ℚ) := by
        rw [hx]
        have h7 : (2 : ℚ) ^ (-1022 : Int) ≤ (2 : ℚ) ^ (-7 : Int) :=
          zpow_le_zpow_right₀ (by norm_num) (by norm_num)
        have h7' : (2 : ℚ) ^ (-7 : Int) = 1 / 128 := by norm_num
        rw [h7'] at h7
        have : (1 : ℚ) / 128 ≤ (priceCents price : ℚ) / 100 := by
          rw [div_le_div_iff₀ (by norm_num) (by norm_num)]
          linarith
        exact le_trans h7 this
      have hhi : (priceCents price : ℚ) / ((100 : Nat) : ℚ) < (2 : ℚ) ^ (1023 : Int) := by
        rw [hx, div_lt_iff₀ (by norm_num)]
        have : (2 : ℚ) ^ (1023 : Int) = (2 : ℚ) ^ (1023 : Nat) := zpow_ofNat 2 1023
        rw [this]
        linarith
      obtain ⟨m, e, hr⟩ := roundNE_finite (priceCents price) 100 hpos (by decide) hlo hhi
      rw [hr]
  · have hm' : dollarAmtMatch price.data = false := by simpa using hm
    rw [hm', Bool.false_and]

theorem valid_total_parts (r : Receipt) (hv : r.ValidateProperties = none) :
    ∃ (dollars : List Char) (a b : Char),
      strings_SplitDot (dollarAmtRgx_FindString r.Total) = [dollars, [a, b]] ∧
      (strconv_Atoi [a, b]).2 = true := by
  obtain ⟨ds, a, b, hne, hds, ha, hb, htotal⟩ := valid_total r hv
  have hm : dollarAmtMatch r.Total.data = true :=
    (dollarAmtMatch_iff _).mpr ⟨ds, a, b, hne, hds, ha, hb, htotal⟩
  refine ⟨ds, a, b, ?_, ?_⟩
  · unfold dollarAmtRgx_FindString
    rw [if_pos hm, htotal]
    exact splitDot_dollarAmt ds a b hds ha hb
  · rw [atoi_two_digits a b ha hb]

/-! ## The claims -/

set_option maxRecDepth 100000

/-- C1: `Receipt.ValidateProperties` returns nil exactly for the receipts with a
non-empty item list, a retailer in `^[\w\s\-&]+$`, a total in `^\d+\.\d{2}$`, a
purchase date and a purchase time that `time.Parse` accepts under `2006-01-02`
and `15:04`, and items that each have a description in `^[\w\s\-]+$` and a price
in `^\d+\.\d{2}$`; every other receipt gets an error.  The dates that parse are
the texts `YYYY-MM-DD` of a calendar day, the times that parse are the texts
`HH:MM` or `H:MM` with an hour below 24 and a minute below 60. -/
theorem C1_validate_nil_iff (r : Receipt) :
    (r.ValidateProperties = none ↔ ValidReceiptSpec r) ∧
      (¬ ValidReceiptSpec r ↔ ∃ err, r.ValidateProperties = some err) ∧
      (∀ s : String, (∃ d, parseDate s = some d) ↔ IsDateText s.data) ∧
      (∀ s : String, (∃ t, parseTime s = some t) ↔ IsTimeText s.data) := by
  have key : r.ValidateProperties = none ↔ ValidReceiptSpec r := by
    rw [receipt_valid_iff]
    unfold ValidReceiptSpec
    simp only [item_valid_iff, retailerRgx_MatchString, shortDescRgx_MatchString,
      dollarAmtRgx_MatchString, classRgx_iff, dollarAmtMatch_iff, Option.isSome_iff_exists]
  refine ⟨key, ?_, parseDate_some_iff, parseTime_some_iff⟩
  rw [← key]
  cases r.ValidateProperties <;> simp

/-- C2: bonus tiers.  Starting from the empty bonus map, after any sequential
run of `ProcessReceipt` calls (shorter than 2^63), the counter of a submitter
key equals the number of successful submissions of the run for that key, so
submissions for other keys and rejected ones do not move it, and the bonus that
the next submission for the key is granted, its `k`-th successful one, is 1000
for k = 1, 500 for k = 2, 250 for k = 3 and 0 for k ≥ 4.  A submission is
successful (answered with an identifier) exactly when its receipt validates. -/
theorem C2_bonus_tiers (L : GoLib) (subs : List Submission) (userID : String)
    (hlen : subs.length < 2 ^ 63) :
    timesProcessed (runSubmissions L ServerState.empty subs) userID =
        (successCount userID subs : Int) ∧
      bonusPointsFor (runSubmissions L ServerState.empty subs) userID =
        bonusTierSpec (successCount userID subs + 1) ∧
      ∀ (st : ServerState) (s : Submission),
        (∃ id, (ProcessReceipt L st s.userID s.rnd s.receipt).1 = HttpResponse.processed ⟨id⟩) ↔
          s.receipt.ValidateProperties = none := by
  have h0 : timesProcessed ServerState.empty userID = 0 := rfl
  have hrun := timesProcessed_run L userID subs ServerState.empty (by rw [h0])
    (by rw [h0]; have : (subs.length : Int) < 2 ^ 63 := by exact_mod_cast hlen
        omega)
  rw [h0, zero_add] at hrun
  refine ⟨hrun, ?_, ?_⟩
  · rw [bonusPointsFor_eq, hrun]
    unfold bonusTierSpec
    generalize successCount userID subs = k
    by_cases h1 : k = 0
    · subst h1
      simp
    · by_cases h2 : k = 1
      · subst h2
        simp
      · by_cases h3 : k = 2
        · subst h3
          simp
        · have hk1 : ¬ ((k : Int) < 1) := by omega
          have hk2 : ¬ ((k : Int) < 2) := by omega
          have hk3 : ¬ ((k : Int) < 3) := by omega
          have e1 : ¬ (k + 1 = 1) := by omega
          have e2 : ¬ (k + 1 = 2) := by omega
          have e3 : ¬ (k + 1 = 3) := by omega
          rw [if_neg hk1, if_neg hk2, if_neg hk3, if_neg e1, if_neg e2, if_neg e3]
  · intro st s
    constructor
    · rintro ⟨id, hid⟩
      by_contra hv
      rw [processReceipt_invalid L st s.userID s.rnd s.receipt hv] at hid
      exact HttpResponse.noConfusion hid
    · intro hv
      obtain ⟨nPoints, _, hproc⟩ := processReceipt_valid L st s.userID s.rnd s.receipt hv
      exact ⟨_, by rw [hproc]⟩

/-- Witness of C2 at a run with four accepted submissions for one key, one for
another key and one rejected submission: the fifth accepted submission of the
first key is granted 0, the second one of the other key 500. -/
theorem C2_bonus_tiers_witness :
    sampleRun.length < 2 ^ 63 ∧
      bonusPointsFor (runSubmissions sampleLib ServerState.empty sampleRun) "alice" =
        bonusTierSpec (4 + 1) ∧
      bonusPointsFor (runSubmissions sampleLib ServerState.empty sampleRun) "bob" =
        bonusTierSpec (1 + 1) :=
  ⟨by decide,
    (C2_bonus_tiers sampleLib sampleRun "alice" (by decide)).2.1,
    (C2_bonus_tiers sampleLib sampleRun "bob" (by decide)).2.1⟩

/-- C3 (the code departs from the claim): the score that `ProcessReceipt`
obtains from `receiptData.CalculatePoints(bonusPoints)` does not depend on the
bonus; for the scenario A receipt it is 28 with bonus 1000 as with bonus 0, not
28 + 1000. -/
theorem C3_bonus_not_added (L : GoLib) :
    CalculatePoints_call L scenarioA 0 = some 28 ∧
      CalculatePoints_call L scenarioA 1000 = some 28 ∧
      ∀ (r : Receipt) (b : Int), CalculatePoints_call L r b = CalculatePoints_call L r 0 :=
  ⟨rfl, rfl, fun _ _ => rfl⟩

/-- C4: round trip.  For every validated receipt and every state of the two
maps, `ProcessReceipt` answers with an identifier, and `GetPoints` on that
identifier in the resulting state answers with exactly the score that the
call `CalculatePoints(bonusPoints)` computes for the receipt with the bonus
tier of its submitter key at submission time. -/
theorem C4_round_trip (L : GoLib) (st : ServerState) (userID : String) (rnd : List Nat)
    (r : Receipt) (hv : r.ValidateProperties = none) :
    ∃ id nPoints,
      (ProcessReceipt L st userID rnd r).1 = HttpResponse.processed ⟨id⟩ ∧
      CalculatePoints_call L r (bonusPointsFor st userID) = some nPoints ∧
      GetPoints (ProcessReceipt L st userID rnd r).2 id =
        (HttpResponse.points ⟨nPoints⟩, (ProcessReceipt L st userID rnd r).2) := by
  obtain ⟨nPoints, hp, hproc⟩ := processReceipt_valid L st userID rnd r hv
  refine ⟨uuid_String (uuid_New rnd), nPoints, ?_, hp, ?_⟩
  · rw [hproc]
  · rw [hproc]
    exact getPoints_stored _ _ _ (uuid_String_matches _) (syncMap_Store_same _ _ _)

/-- Witness of C4 at the scenario A receipt on a fresh server. -/
theorem C4_round_trip_witness :
    scenarioA.ValidateProperties = none ∧
      ∃ id nPoints,
        (ProcessReceipt sampleLib ServerState.empty "" [] scenarioA).1 =
          HttpResponse.processed ⟨id⟩ ∧
        CalculatePoints_call sampleLib scenarioA (bonusPointsFor ServerState.empty "") =
          some nPoints ∧
        GetPoints (ProcessReceipt sampleLib ServerState.empty "" [] scenarioA).2 id =
          (HttpResponse.points ⟨nPoints⟩,
            (ProcessReceipt sampleLib ServerState.empty "" [] scenarioA).2) :=
  ⟨by decide, C4_round_trip sampleLib ServerState.empty "" [] scenarioA (by decide)⟩

/-- C5: rejection is atomic.  For every receipt on which `ValidateProperties`
returns an error and every prior state, `ProcessReceipt` answers status 400
with the message "The receipt is invalid.", returns no identifier, and leaves
the score store and the bonus map exactly as they were. -/
theorem C5_rejection_atomic (L : GoLib) (st : ServerState) (userID : String) (rnd : List Nat)
    (r : Receipt) (hv : r.ValidateProperties ≠ none) :
    ProcessReceipt L st userID rnd r = (HttpResponse.text 400 "The receipt is invalid.", st) ∧
      (∀ id, (ProcessReceipt L st userID rnd r).1 ≠ HttpResponse.processed ⟨id⟩) ∧
      (ProcessReceipt L st userID rnd r).2.pointsStore = st.pointsStore ∧
      (ProcessReceipt L st userID rnd r).2.bonusMap = st.bonusMap := by
  have h := processReceipt_invalid L st userID rnd r hv
  rw [h]
  exact ⟨rfl, fun id hid => HttpResponse.noConfusion hid, rfl, rfl⟩

/-- Witness of C5 at the receipt without items of `TestProcessReceiptWithoutItems`. -/
theorem C5_rejection_atomic_witness :
    receiptWithoutItems.ValidateProperties ≠ none ∧
      ProcessReceipt sampleLib ServerState.empty "" [] receiptWithoutItems =
        (HttpResponse.text 400 "The receipt is invalid.", ServerState.empty) :=
  ⟨by decide,
    (C5_rejection_atomic sampleLib ServerState.empty "" [] receiptWithoutItems (by decide)).1⟩

/-- C6: scenario B end to end.  On a fresh server, after the scenario A receipt
and with the empty submitter key for both, `ProcessReceipt` on the scenario B
receipt returns an identifier on which `GetPoints` answers points = 109; the
same holds from every state of the two maps and for every submitter key. -/
theorem C6_scenarioB_end_to_end (L : GoLib) (rnd1 rnd2 : List Nat) :
    (ProcessReceipt L (ProcessReceipt L ServerState.empty "" rnd1 scenarioA).2 "" rnd2
        scenarioB).1 = HttpResponse.processed ⟨uuid_String (uuid_New rnd2)⟩ ∧
      (GetPoints (ProcessReceipt L (ProcessReceipt L ServerState.empty "" rnd1 scenarioA).2 ""
        rnd2 scenarioB).2 (uuid_String (uuid_New rnd2))).1 = HttpResponse.points ⟨109⟩ ∧
      ∀ (st : ServerState) (userID : String) (rnd : List Nat),
        (GetPoints (ProcessReceipt L st userID rnd scenarioB).2 (uuid_String (uuid_New rnd))).1 =
          HttpResponse.points ⟨109⟩ := by
  have hgen : ∀ (st : ServerState) (userID : String) (rnd : List Nat),
      (ProcessReceipt L st userID rnd scenarioB).1 =
          HttpResponse.processed ⟨uuid_String (uuid_New rnd)⟩ ∧
        (GetPoints (ProcessReceipt L st userID rnd scenarioB).2 (uuid_String (uuid_New rnd))).1 =
          HttpResponse.points ⟨109⟩ := by
    intro st userID rnd
    have hvB : scenarioB.ValidateProperties = none := by decide
    obtain ⟨nPoints, hp, hproc⟩ := processReceipt_valid L st userID rnd scenarioB hvB
    have h109 : CalculatePoints_call L scenarioB (bonusPointsFor st userID) = some 109 := rfl
    have hn : nPoints = 109 := Option.some.inj (hp.symm.trans h109)
    subst hn
    rw [hproc]
    refine ⟨rfl, ?_⟩
    rw [getPoints_stored _ _ 109 (uuid_String_matches _) (syncMap_Store_same _ _ _)]
  exact ⟨(hgen _ _ _).1, (hgen _ _ _).2, fun st userID rnd => (hgen st userID rnd).2⟩

/-- C7: scenario A.  The receipt validates and `CalculatePoints` returns 28,
made of 6 for the retailer, 0 for the total, 10 for the two pairs of items,
3 + 3 for the two descriptions with a trimmed length that is a multiple of 3,
6 for the odd day and 0 for the time. -/
theorem C7_scenarioA_score (L : GoLib) :
    scenarioA.ValidateProperties = none ∧ scenarioA.CalculatePoints L = some 28 ∧
      retailerRule L scenarioA.Retailer.data 0 = 6 ∧
      totalRule scenarioA.Total 6 = some 6 ∧
      pairRule scenarioA.Items 6 = 16 ∧
      priceFifth L "12.25" = 3 ∧ priceFifth L "12.00" = 3 ∧
      descriptionRule L scenarioA.Items 16 = 22 ∧
      dayRule scenarioA.PurchaseDate 22 = 28 ∧
      timeRule scenarioA.PurchaseTime 28 = 28 :=
  ⟨by decide, rfl, rfl, rfl, rfl, rfl, rfl, rfl, rfl, rfl⟩

/-- C8 fails as stated for large prices: for the validated receipt with the
single item "abc" of price 1000000000000000.01 the exact rule gives
ceil(100000000000000001 / 500) = 200000000000001, but the description rule
adds 200000000000000, because the price is first rounded to the `float64`
1000000000000000. -/
theorem C8_counterexample :
    largePriceReceipt.ValidateProperties = none ∧
      descriptionPointsSpec largePriceReceipt.Items = 200000000000001 ∧
      descriptionRule sampleLib largePriceReceipt.Items 0 = 200000000000000 ∧
      descriptionRule sampleLib largePriceReceipt.Items 0 ≠
        0 + descriptionPointsSpec largePriceReceipt.Items := by
  have hspec : descriptionPointsSpec largePriceReceipt.Items = 200000000000001 := by
    have h1 : (strings_TrimSpace "abc".data).length = 3 := by decide
    have h2 : priceCents "1000000000000000.01" = 100000000000000001 := by decide
    simp only [largePriceReceipt, descriptionPointsSpec, exactFifth_eq, h1, h2]
    decide
  have hcode : descriptionRule sampleLib largePriceReceipt.Items 0 = 200000000000000 := by rfl
  refine ⟨by decide, hspec, hcode, ?_⟩
  rw [hspec, hcode]
  decide

/-- C8 (amended): trimmed-description rule for prices below 10^13.  For every
validated receipt whose item prices are below 10^13 (fewer than 10^15 cents)
and every int64 running score `tp`, the description rule yields
`tp + S` in int64 arithmetic, where `S` is the sum, over exactly the items
whose trimmed description has a length that is a positive multiple of 3, of
ceil(priceInCents / 500); it is `tp + S` itself when that fits in int64.  The
rule is the item part of `CalculatePoints`. -/
theorem C8_description_rule (L : GoLib) (r : Receipt) (tp : Int)
    (hv : r.ValidateProperties = none)
    (hbound : ∀ item ∈ r.Items, priceCents item.Price < 10 ^ 15)
    (htp : -(2 ^ 63 : Int) ≤ tp ∧ tp < 2 ^ 63) :
    descriptionRule L r.Items tp = wrap64 (tp + descriptionPointsSpec r.Items) ∧
      (tp + descriptionPointsSpec r.Items < 2 ^ 63 → 0 ≤ descriptionPointsSpec r.Items →
        descriptionRule L r.Items tp = tp + descriptionPointsSpec r.Items) ∧
      ∃ afterTotal, totalRule r.Total (retailerRule L r.Retailer.data 0) = some afterTotal ∧
        r.CalculatePoints L = some (timeRule r.PurchaseTime (dayRule r.PurchaseDate
          (descriptionRule L r.Items (pairRule r.Items afterTotal)))) := by
  have hitems := ((receipt_valid_iff r).mp hv).2.2.2.2.2
  have hmain := descriptionRule_spec L r.Items hitems hbound tp htp.1 htp.2
  refine ⟨hmain, ?_, calculatePoints_unfold L r hv⟩
  intro hlt hnn
  rw [hmain]
  apply wrap64_of_range
  · have := htp.1
    omega
  · exact hlt

/-- Witness of C8 (amended) at the scenario A receipt, after the pair rule. -/
theorem C8_description_rule_witness :
    scenarioA.ValidateProperties = none ∧
      (∀ item ∈ scenarioA.Items, priceCents item.Price < 10 ^ 15) ∧
      descriptionRule sampleLib scenarioA.Items 16 =
        wrap64 (16 + descriptionPointsSpec scenarioA.Items) :=
  ⟨by decide, by decide,
    (C8_description_rule sampleLib scenarioA 16 (by decide) (by decide) (by decide)).1⟩

/-- C9: round-dollar and quarter-multiple rules.  For every validated receipt
the total is `dollars.ab` with two cents digits `a`, `b`, and the total rules
turn the running score `tp` into `tp + 75` (int64 addition) when the cents are
00, into `tp + 25` when the cents are 25, 50 or 75, and leave it unchanged
otherwise, whatever the dollar part; `CalculatePoints` applies them to the
score of the retailer rule, before the remaining rules. -/
theorem C9_total_rules (L : GoLib) (r : Receipt) (hv : r.ValidateProperties = none) :
    ∃ (dollars : List Char) (a b : Char),
      r.Total.data = dollars ++ ['.', a, b] ∧ perlDigit a = true ∧ perlDigit b = true ∧
      (∀ tp : Int, totalRule r.Total tp =
        some (if digitVal a * 10 + digitVal b = 0 then add64 tp 75
          else if digitVal a * 10 + digitVal b = 25 ∨ digitVal a * 10 + digitVal b = 50 ∨
              digitVal a * 10 + digitVal b = 75 then add64 tp 25
          else tp)) ∧
      ∃ afterTotal, totalRule r.Total (retailerRule L r.Retailer.data 0) = some afterTotal ∧
        r.CalculatePoints L = some (timeRule r.PurchaseTime (dayRule r.PurchaseDate
          (descriptionRule L r.Items (pairRule r.Items afterTotal)))) := by
  obtain ⟨ds, a, b, hne, hds, ha, hb, htotal⟩ := valid_total r hv
  exact ⟨ds, a, b, htotal, ha, hb, totalRule_dollarAmt r.Total ds a b hds hne ha hb htotal,
    calculatePoints_unfold L r hv⟩

/-- Witness of C9 at the scenario B receipt (total 9.00). -/
theorem C9_total_rules_witness :
    scenarioB.ValidateProperties = none ∧
      ∃ (dollars : List Char) (a b : Char),
        scenarioB.Total.data = dollars ++ ['.', a, b] ∧ perlDigit a = true ∧
        perlDigit b = true ∧
        (∀ tp : Int, totalRule scenarioB.Total tp =
          some (if digitVal a * 10 + digitVal b = 0 then add64 tp 75
            else if digitVal a * 10 + digitVal b = 25 ∨ digitVal a * 10 + digitVal b = 50 ∨
                digitVal a * 10 + digitVal b = 75 then add64 tp 25
            else tp)) ∧
        ∃ afterTotal,
          totalRule scenarioB.Total (retailerRule sampleLib scenarioB.Retailer.data 0) =
            some afterTotal ∧
          scenarioB.CalculatePoints sampleLib =
            some (timeRule scenarioB.PurchaseTime (dayRule scenarioB.PurchaseDate
              (descriptionRule sampleLib scenarioB.Items (pairRule scenarioB.Items afterTotal)))) :=
  ⟨by decide, C9_total_rules sampleLib scenarioB (by decide)⟩

/-- C10: afternoon-window rule.  For every validated receipt the purchase time
is a text `h:ab` with `h` an hour of one or two digits below 24 and `ab` a
two-digit minute below 60, and the time rule adds 10 (int64 addition) to the
running score exactly when that time is strictly after 14:00 and strictly
before 18:00; at 14:00, at 18:00 and outside the window the score is
unchanged.  `CalculatePoints` applies the time rule last: its result is the
score of the retailer, total, pair, description and day rules, plus 10 exactly
in the window. -/
theorem C10_afternoon_window (L : GoLib) (r : Receipt) (hv : r.ValidateProperties = none) :
    ∃ (h : List Char) (a b : Char),
      (h.length = 1 ∨ h.length = 2) ∧ (∀ c ∈ h, perlDigit c = true) ∧
      perlDigit a = true ∧ perlDigit b = true ∧
      r.PurchaseTime.data = h ++ [':', a, b] ∧
      decimalValue h < 24 ∧ digitVal a * 10 + digitVal b < 60 ∧
      parseTime r.PurchaseTime = some (decimalValue h * 60 + (digitVal a * 10 + digitVal b)) ∧
      (∀ tp : Int, timeRule r.PurchaseTime tp =
        if (14 < decimalValue h ∨ (decimalValue h = 14 ∧ 0 < digitVal a * 10 + digitVal b)) ∧
            decimalValue h < 18 then add64 tp 10 else tp) ∧
      ∃ afterTotal, totalRule r.Total (retailerRule L r.Retailer.data 0) = some afterTotal ∧
        r.CalculatePoints L =
          some (if (14 < decimalValue h ∨
                (decimalValue h = 14 ∧ 0 < digitVal a * 10 + digitVal b)) ∧
              decimalValue h < 18
            then add64 (dayRule r.PurchaseDate
              (descriptionRule L r.Items (pairRule r.Items afterTotal))) 10
            else dayRule r.PurchaseDate
              (descriptionRule L r.Items (pairRule r.Items afterTotal))) := by
  have hvalid := (receipt_valid_iff r).mp hv
  obtain ⟨t, ht⟩ := Option.isSome_iff_exists.mp hvalid.2.2.2.2.1
  obtain ⟨h, a, b, hlen, hdig, ha, hb, hs, hhour, hmin, rfl⟩ := parseTime_some_form _ _ ht
  have hrule : ∀ tp : Int, timeRule r.PurchaseTime tp =
      if (14 < decimalValue h ∨ (decimalValue h = 14 ∧ 0 < digitVal a * 10 + digitVal b)) ∧
          decimalValue h < 18 then add64 tp 10 else tp := by
    intro tp
    have h14 : parseTime "14:00" = some 840 := by decide
    have h18 : parseTime "18:00" = some 1080 := by decide
    unfold timeRule
    simp only [ht, h14, h18, Option.getD_some]
    by_cases hw : (14 < decimalValue h ∨
        (decimalValue h = 14 ∧ 0 < digitVal a * 10 + digitVal b)) ∧ decimalValue h < 18
    · rw [if_pos hw, if_pos (by omega)]
    · rw [if_neg hw, if_neg (by omega)]
  obtain ⟨afterTotal, htot, hcalc⟩ := calculatePoints_unfold L r hv
  refine ⟨h, a, b, hlen, hdig, ha, hb, hs, hhour, hmin, ht, hrule, afterTotal, htot, ?_⟩
  rw [hcalc, hrule]

/-- Witness of C10 at the scenario B receipt (time 14:33). -/
theorem C10_afternoon_window_witness :
    scenarioB.ValidateProperties = none ∧
      ∃ (h : List Char) (a b : Char),
        (h.length = 1 ∨ h.length = 2) ∧ (∀ c ∈ h, perlDigit c = true) ∧
        perlDigit a = true ∧ perlDigit b = true ∧
        scenarioB.PurchaseTime.data = h ++ [':', a, b] ∧
        decimalValue h < 24 ∧ digitVal a * 10 + digitVal b < 60 ∧
        parseTime scenarioB.PurchaseTime =
          some (decimalValue h * 60 + (digitVal a * 10 + digitVal b)) ∧
        (∀ tp : Int, timeRule scenarioB.PurchaseTime tp =
          if (14 < decimalValue h ∨ (decimalValue h = 14 ∧ 0 < digitVal a * 10 + digitVal b)) ∧
              decimalValue h < 18 then add64 tp 10 else tp) ∧
        ∃ afterTotal,
          totalRule scenarioB.Total (retailerRule sampleLib scenarioB.Retailer.data 0) =
            some afterTotal ∧
          scenarioB.CalculatePoints sampleLib =
            some (if (14 < decimalValue h ∨
                  (decimalValue h = 14 ∧ 0 < digitVal a * 10 + digitVal b)) ∧
                decimalValue h < 18
              then add64 (dayRule scenarioB.PurchaseDate
                (descriptionRule sampleLib scenarioB.Items
                  (pairRule scenarioB.Items afterTotal))) 10
              else dayRule scenarioB.PurchaseDate
                (descriptionRule sampleLib scenarioB.Items
                  (pairRule scenarioB.Items afterTotal))) :=
  ⟨by decide, C10_afternoon_window sampleLib scenarioB (by decide)⟩

/-- C11: alphanumeric retailer rule.  For every validated receipt every
character of the retailer is ASCII, the retailer rule adds one point (int64
addition) per character that is a letter or a decimal digit and nothing for
the others, and the number of these characters is the length of the retailer
minus its number of underscores, whitespace characters, hyphens and
ampersands; `CalculatePoints` starts from the result of this rule on 0. -/
theorem C11_retailer_rule (L : GoLib) (r : Receipt) (hv : r.ValidateProperties = none) :
    (∀ c ∈ r.Retailer.data,
        (unicode_IsDigit L c || unicode_IsLetter L c) = isAsciiAlnum c) ∧
      (∀ tp : Int, -(2 ^ 63 : Int) ≤ tp → tp < 2 ^ 63 →
        retailerRule L r.Retailer.data tp =
          wrap64 (tp + ((r.Retailer.data.filter isAsciiAlnum).length : Nat))) ∧
      (r.Retailer.data.filter isAsciiAlnum).length +
          (r.Retailer.data.filter isRetailerPunct).length = r.Retailer.data.length ∧
      (r.Retailer.data.length < 2 ^ 63 →
        retailerRule L r.Retailer.data 0 = ((r.Retailer.data.filter isAsciiAlnum).length : Nat)) ∧
      ∃ afterTotal, totalRule r.Total (retailerRule L r.Retailer.data 0) = some afterTotal ∧
        r.CalculatePoints L = some (timeRule r.PurchaseTime (dayRule r.PurchaseDate
          (descriptionRule L r.Items (pairRule r.Items afterTotal)))) := by
  have hret := ((classRgx_iff retailerClass r.Retailer.data).mp
    ((receipt_valid_iff r).mp hv).2.1).2
  have hcls : ∀ c ∈ r.Retailer.data,
      (unicode_IsDigit L c || unicode_IsLetter L c) = isAsciiAlnum c :=
    fun c hc => (retailerClass_alnum L c (hret c hc)).1
  have hcount : (r.Retailer.data.filter
      (fun c => unicode_IsDigit L c || unicode_IsLetter L c)).length =
      (r.Retailer.data.filter isAsciiAlnum).length :=
    filter_length_congr _ _ _ hcls
  have hrule : ∀ tp : Int, -(2 ^ 63 : Int) ≤ tp → tp < 2 ^ 63 →
      retailerRule L r.Retailer.data tp =
        wrap64 (tp + ((r.Retailer.data.filter isAsciiAlnum).length : Nat)) := by
    intro tp h1 h2
    rw [retailerRule_count L _ tp h1 h2, hcount]
  have hle : (r.Retailer.data.filter isAsciiAlnum).length ≤ r.Retailer.data.length :=
    List.length_filter_le _ _
  refine ⟨hcls, hrule,
    filter_length_compl _ _ _ (fun c hc => (retailerClass_alnum L c (hret c hc)).2), ?_,
    calculatePoints_unfold L r hv⟩
  intro hlen
  rw [hrule 0 (by norm_num) (by norm_num), zero_add]
  apply wrap64_of_range <;> omega

/-- Witness of C11 at the scenario B receipt (retailer "M&M Corner Market"). -/
theorem C11_retailer_rule_witness :
    scenarioB.ValidateProperties = none ∧
      retailerRule sampleLib scenarioB.Retailer.data 0 = 14 ∧
      (scenarioB.Retailer.data.filter isAsciiAlnum).length +
          (scenarioB.Retailer.data.filter isRetailerPunct).length =
        scenarioB.Retailer.data.length :=
  ⟨by decide, by decide, (C11_retailer_rule sampleLib scenarioB (by decide)).2.2.1⟩

/-- C12: item-pair rule.  For every validated receipt with `n` items the pair
rule adds `5 * floor(n / 2)` to the running score (int64 addition, the exact
sum when it fits in int64), whatever the items contain; `CalculatePoints`
applies it after the total rules. -/
theorem C12_pair_rule (L : GoLib) (r : Receipt) (hv : r.ValidateProperties = none) :
    (∀ tp : Int, pairRule r.Items tp =
        wrap64 (tp + 5 * ((r.Items.length / 2 : Nat) : Int))) ∧
      (∀ tp : Int, -(2 ^ 63 : Int) ≤ tp → tp + 5 * ((r.Items.length / 2 : Nat) : Int) < 2 ^ 63 →
        pairRule r.Items tp = tp + 5 * ((r.Items.length / 2 : Nat) : Int)) ∧
      (∀ (other : List Item) (tp : Int), other.length = r.Items.length →
        pairRule other tp = pairRule r.Items tp) ∧
      ∃ afterTotal, totalRule r.Total (retailerRule L r.Retailer.data 0) = some afterTotal ∧
        r.CalculatePoints L = some (timeRule r.PurchaseTime (dayRule r.PurchaseDate
          (descriptionRule L r.Items (pairRule r.Items afterTotal)))) := by
  refine ⟨fun tp => pairRule_eq _ tp, ?_, ?_, calculatePoints_unfold L r hv⟩
  · intro tp h1 h2
    rw [pairRule_eq]
    exact wrap64_add_nonneg _ _ h1 (by positivity) h2
  · intro other tp hlen
    rw [pairRule_eq, pairRule_eq, hlen]

/-- Witness of C12 at the scenario A receipt (five items, two pairs). -/
theorem C12_pair_rule_witness :
    scenarioA.ValidateProperties = none ∧ pairRule scenarioA.Items 6 = 6 + 5 * 2 :=
  ⟨by decide,
    (C12_pair_rule sampleLib scenarioA (by decide)).2.1 6 (by decide) (by decide)⟩

/-- C13: odd-day rule.  For every validated receipt the purchase date is a
text `YYYY-MM-DD` whose last two digits give the day of the month, and the day
rule adds 6 (int64 addition) to the running score exactly when that day is odd
and leaves the score unchanged otherwise.  `CalculatePoints` applies it to the
score of the retailer, total, pair and description rules, before the time
rule; and the year and the month never affect the score: replacing the date by
any other date that validates and whose day has the same parity leaves the
result of `CalculatePoints` unchanged. -/
theorem C13_odd_day_rule (L : GoLib) (r : Receipt) (hv : r.ValidateProperties = none) :
    ∃ y1 y2 y3 y4 m1 m2 d1 d2 : Char,
      r.PurchaseDate.data = [y1, y2, y3, y4, '-', m1, m2, '-', d1, d2] ∧
      perlDigit d1 = true ∧ perlDigit d2 = true ∧
      (∀ tp : Int, dayRule r.PurchaseDate tp =
        if (digitVal d1 * 10 + digitVal d2) % 2 = 1 then add64 tp 6 else tp) ∧
      (∃ afterTotal, totalRule r.Total (retailerRule L r.Retailer.data 0) = some afterTotal ∧
        r.CalculatePoints L =
          some (timeRule r.PurchaseTime
            (if (digitVal d1 * 10 + digitVal d2) % 2 = 1
              then add64 (descriptionRule L r.Items (pairRule r.Items afterTotal)) 6
              else descriptionRule L r.Items (pairRule r.Items afterTotal)))) ∧
      ∀ (date2 : String) (ym2 : List Char) (e1 e2 : Char),
        (⟨r.Retailer, r.Total, date2, r.PurchaseTime, r.Items⟩ : Receipt).ValidateProperties =
          none →
        date2.data = ym2 ++ [e1, e2] →
        (digitVal e1 * 10 + digitVal e2) % 2 = (digitVal d1 * 10 + digitVal d2) % 2 →
        (⟨r.Retailer, r.Total, date2, r.PurchaseTime, r.Items⟩ : Receipt).CalculatePoints L =
          r.CalculatePoints L := by
  have h := (receipt_valid_iff r).mp hv
  obtain ⟨d, hd⟩ := Option.isSome_iff_exists.mp h.2.2.2.1
  obtain ⟨y1, y2, y3, y4, m1, m2, d1, d2, hs, hd1, hd2, rfl⟩ := parseDate_some_form _ _ hd
  obtain ⟨afterTotal, htot, hcalc⟩ := calculatePoints_unfold L r hv
  have hrule := dayRule_eq r.PurchaseDate _ hd
  refine ⟨y1, y2, y3, y4, m1, m2, d1, d2, hs, hd1, hd2, hrule, ⟨afterTotal, htot, ?_⟩, ?_⟩
  · rw [hcalc, hrule]
  · intro date2 ym2 e1 e2 hv2 hform hpar
    have h2 := (receipt_valid_iff _).mp hv2
    obtain ⟨dd, hdd⟩ := Option.isSome_iff_exists.mp h2.2.2.2.1
    obtain ⟨z1, z2, z3, z4, n1, n2, f1, f2, hs2, _, _, rfl⟩ := parseDate_some_form _ _ hdd
    have hsplit : ym2 ++ [e1, e2] = [z1, z2, z3, z4, '-', n1, n2, '-'] ++ [f1, f2] := by
      rw [← hform]
      exact hs2
    have hlast := (List.append_inj' hsplit rfl).2
    simp only [List.cons.injEq, and_true] at hlast
    obtain ⟨rfl, rfl⟩ := hlast
    obtain ⟨afterTotal2, htot2, hcalc2⟩ := calculatePoints_unfold L _ hv2
    have hsame : afterTotal2 = afterTotal := Option.some.inj (htot2.symm.trans htot)
    have hrule2 := dayRule_eq date2 _ hdd
    rw [hcalc2, hcalc, hsame]
    simp only [hrule2, hrule, hpar]

/-- Witness of C13 at the scenario A receipt (2022-01-01, an odd day). -/
theorem C13_odd_day_rule_witness :
    scenarioA.ValidateProperties = none ∧
      ∃ y1 y2 y3 y4 m1 m2 d1 d2 : Char,
        scenarioA.PurchaseDate.data = [y1, y2, y3, y4, '-', m1, m2, '-', d1, d2] ∧
        perlDigit d1 = true ∧ perlDigit d2 = true ∧
        (∀ tp : Int, dayRule scenarioA.PurchaseDate tp =
          if (digitVal d1 * 10 + digitVal d2) % 2 = 1 then add64 tp 6 else tp) ∧
        (∃ afterTotal,
          totalRule scenarioA.Total (retailerRule sampleLib scenarioA.Retailer.data 0) =
            some afterTotal ∧
          scenarioA.CalculatePoints sampleLib =
            some (timeRule scenarioA.PurchaseTime
              (if (digitVal d1 * 10 + digitVal d2) % 2 = 1
                then add64 (descriptionRule sampleLib scenarioA.Items
                  (pairRule scenarioA.Items afterTotal)) 6
                else descriptionRule sampleLib scenarioA.Items
                  (pairRule scenarioA.Items afterTotal)))) ∧
        ∀ (date2 : String) (ym2 : List Char) (e1 e2 : Char),
          (⟨scenarioA.Retailer, scenarioA.Total, date2, scenarioA.PurchaseTime,
            scenarioA.Items⟩ : Receipt).ValidateProperties = none →
          date2.data = ym2 ++ [e1, e2] →
          (digitVal e1 * 10 + digitVal e2) % 2 = (digitVal d1 * 10 + digitVal d2) % 2 →
          (⟨scenarioA.Retailer, scenarioA.Total, date2, scenarioA.PurchaseTime,
            scenarioA.Items⟩ : Receipt).CalculatePoints sampleLib =
            scenarioA.CalculatePoints sampleLib :=
  ⟨by decide, C13_odd_day_rule sampleLib scenarioA (by decide)⟩

/-- C14 fails as stated: the validated receipt with two items "abc" of price
30000000000000000000.00 gets 6000000000000000000 for each item, the int64 sum
wraps around, and `CalculatePoints` returns -6446744073709551599, whatever the
bonus and the library parameters. -/
theorem C14_counterexample :
    overflowReceipt.ValidateProperties = none ∧
      CalculatePoints_call sampleLib overflowReceipt 1000 = some (-6446744073709551599) ∧
      (∀ (L : GoLib) (b : Int),
        CalculatePoints_call L overflowReceipt b = some (-6446744073709551599)) ∧
      ¬ ∃ n : Int, CalculatePoints_call sampleLib overflowReceipt 1000 = some n ∧ 0 ≤ n := by
  have hall : ∀ (L : GoLib) (b : Int),
      CalculatePoints_call L overflowReceipt b = some (-6446744073709551599) :=
    fun _ _ => rfl
  refine ⟨by decide, hall _ _, hall, ?_⟩
  rintro ⟨n, hn, h0⟩
  rw [hall] at hn
  have := Option.some.inj hn
  omega

/-- C14 (amended): non-negativity for receipts of moderate size.  For every
validated receipt whose item prices are below 10^13, with at most 1000000
items and a retailer of at most 10^18 characters, and for every bonus,
`CalculatePoints` returns a score that is at least 0. -/
theorem C14_score_nonneg (L : GoLib) (r : Receipt) (b : Int)
    (hv : r.ValidateProperties = none)
    (hprices : ∀ item ∈ r.Items, priceCents item.Price < 10 ^ 15)
    (hitems : r.Items.length ≤ 1000000) (hret : r.Retailer.data.length ≤ 10 ^ 18) :
    ∃ n : Int, CalculatePoints_call L r b = some n ∧ 0 ≤ n :=
  calculatePoints_nonneg L r hv hprices hitems hret

/-- Witness of C14 (amended) at the scenario A receipt with bonus 1000. -/
theorem C14_score_nonneg_witness :
    scenarioA.ValidateProperties = none ∧
      ∃ n : Int, CalculatePoints_call sampleLib scenarioA 1000 = some n ∧ 0 ≤ n :=
  ⟨by decide,
    C14_score_nonneg sampleLib scenarioA 1000 (by decide) (by decide) (by decide) (by decide)⟩

/-- C15: validation is short-circuiting in a fixed order.  The error of
`ValidateProperties` is the one of the first violated rule in the order
item count, retailer, total, purchase date, purchase time, then the items in
sequence: the first invalid item decides, by its description when that fails
and by its price otherwise; later violations do not matter. -/
theorem C15_validation_order (r : Receipt) :
    (r.Items = [] → r.ValidateProperties = some ValidationError.items) ∧
      (r.Items ≠ [] → retailerRgx_MatchString r.Retailer = false →
        r.ValidateProperties = some ValidationError.retailer) ∧
      (r.Items ≠ [] → retailerRgx_MatchString r.Retailer = true →
        dollarAmtRgx_MatchString r.Total = false →
        r.ValidateProperties = some ValidationError.total) ∧
      (r.Items ≠ [] → retailerRgx_MatchString r.Retailer = true →
        dollarAmtRgx_MatchString r.Total = true → parseDate r.PurchaseDate = none →
        r.ValidateProperties = some ValidationError.purchaseDate) ∧
      (r.Items ≠ [] → retailerRgx_MatchString r.Retailer = true →
        dollarAmtRgx_MatchString r.Total = true → parseDate r.PurchaseDate ≠ none →
        parseTime r.PurchaseTime = none →
        r.ValidateProperties = some ValidationError.purchaseTime) ∧
      (retailerRgx_MatchString r.Retailer = true →
        dollarAmtRgx_MatchString r.Total = true → parseDate r.PurchaseDate ≠ none →
        parseTime r.PurchaseTime ≠ none →
        ∀ (pre post : List Item) (item : Item), r.Items = pre ++ item :: post →
          (∀ i ∈ pre, i.ValidateProperties = none) →
          (shortDescRgx_MatchString item.ShortDescription = false →
            r.ValidateProperties = some ValidationError.shortDescription) ∧
          (shortDescRgx_MatchString item.ShortDescription = true →
            dollarAmtRgx_MatchString item.Price = false →
            r.ValidateProperties = some ValidationError.price)) := by
  have hlen : ∀ {l : List Item}, l ≠ [] → ¬ l.length < 1 := by
    intro l hl
    cases l with
    | nil => exact absurd rfl hl
    | cons x xs => simp
  refine ⟨?_, ?_, ?_, ?_, ?_, ?_⟩
  · intro h
    simp [Receipt.ValidateProperties, h]
  · intro h0 h1
    simp [Receipt.ValidateProperties, hlen h0, h1]
  · intro h0 h1 h2
    simp [Receipt.ValidateProperties, hlen h0, h1, h2]
  · intro h0 h1 h2 h3
    simp [Receipt.ValidateProperties, hlen h0, h1, h2, h3]
  · intro h0 h1 h2 h3 h4
    obtain ⟨d, hd⟩ := Option.ne_none_iff_exists'.mp h3
    simp [Receipt.ValidateProperties, hlen h0, h1, h2, hd, h4]
  · intro h1 h2 h3 h4 pre post item hitems hpre
    obtain ⟨d, hd⟩ := Option.ne_none_iff_exists'.mp h3
    obtain ⟨t, ht⟩ := Option.ne_none_iff_exists'.mp h4
    have h0 : r.Items ≠ [] := by
      rw [hitems]
      simp
    have hbase : r.ValidateProperties = validateItems r.Items := by
      simp [Receipt.ValidateProperties, hlen h0, h1, h2, hd, ht]
    rw [hbase, hitems]
    constructor
    · intro hdesc
      apply validateItems_first pre post item _ hpre
      simp [Item.ValidateProperties, hdesc]
    · intro hdesc hprice
      apply validateItems_first pre post item _ hpre
      simp [Item.ValidateProperties, hdesc, hprice]

/-- Witness of C15 at a receipt that violates the retailer, total, date, time
and item rules at once: the retailer error is returned. -/
theorem C15_validation_order_witness :
    (⟨"", "NOT a total", "Jan 01", "8:00 PM", [⟨"", "NOT a price"⟩]⟩ : Receipt).ValidateProperties =
      some ValidationError.retailer :=
  (C15_validation_order ⟨"", "NOT a total", "Jan 01", "8:00 PM", [⟨"", "NOT a price"⟩]⟩).2.1
    (by decide) (by decide)

/-- C16: store invariant.  After any sequence of `ProcessReceipt` and
`GetPoints` calls from the empty store, with fresh generated identifiers, the
score store holds exactly the identifiers that the successful submissions
returned in their responses, each mapped to the score computed and stored at
its submission; `GetPoints` on an identifier that no submission returned
answers "No receipt found for that ID."; and later requests change neither a
stored score nor the answer of `GetPoints` for it. -/
theorem C16_store_invariant (L : GoLib) (reqs : List Request)
    (hfresh : freshIds L ServerState.empty reqs = true) :
    (∀ id : String,
        (∃ n : Int, (runRequests L ServerState.empty reqs).pointsStore id = some n) ↔
          id ∈ returned L ServerState.empty reqs) ∧
      (∀ (id : String) (n : Int),
        (runRequests L ServerState.empty reqs).pointsStore id = some n ↔
          (id, n) ∈ issued L ServerState.empty reqs) ∧
      (∀ id : String, id ∉ returned L ServerState.empty reqs →
        GetPoints (runRequests L ServerState.empty reqs) id =
          (HttpResponse.text 404 "No receipt found for that ID.",
            runRequests L ServerState.empty reqs)) ∧
      (∀ more : List Request, freshIds L (runRequests L ServerState.empty reqs) more = true →
        ∀ (id : String) (n : Int),
          (runRequests L ServerState.empty reqs).pointsStore id = some n →
          (runRequests L (runRequests L ServerState.empty reqs) more).pointsStore id = some n ∧
          (GetPoints (runRequests L (runRequests L ServerState.empty reqs) more) id).1 =
            (GetPoints (runRequests L ServerState.empty reqs) id).1) := by
  have hinv : ∀ (id : String) (n : Int),
      (runRequests L ServerState.empty reqs).pointsStore id = some n ↔
        (id, n) ∈ issued L ServerState.empty reqs := by
    intro id n
    rw [store_run L reqs ServerState.empty hfresh id n]
    constructor
    · rintro (h | h)
      · exact absurd h (by simp [ServerState.empty])
      · exact h
    · exact Or.inr
  have hids : ∀ id : String,
      (∃ n : Int, (runRequests L ServerState.empty reqs).pointsStore id = some n) ↔
        id ∈ returned L ServerState.empty reqs := by
    intro id
    rw [returned_iff L reqs ServerState.empty id]
    exact exists_congr (hinv id)
  refine ⟨hids, hinv, ?_, ?_⟩
  · intro id hid
    apply getPoints_absent
    cases hs : (runRequests L ServerState.empty reqs).pointsStore id with
    | none => rfl
    | some n => exact absurd ((hids id).mp ⟨n, hs⟩) hid
  · intro more hmore id n hs
    have hkeep : (runRequests L (runRequests L ServerState.empty reqs) more).pointsStore id =
        some n := (store_run L more _ hmore id n).mpr (Or.inl hs)
    exact ⟨hkeep, getPoints_congr _ _ id (hkeep.trans hs.symm)⟩

/-- Witness of C16 at two accepted submissions, a query and a rejected
submission: the store holds exactly the two returned identifiers, with the
scores 28 and 109 of the two receipts. -/
theorem C16_store_invariant_witness :
    freshIds sampleLib ServerState.empty sampleRequests = true ∧
      returned sampleLib ServerState.empty sampleRequests =
        [uuid_String (uuid_New [1]), uuid_String (uuid_New [2])] ∧
      issued sampleLib ServerState.empty sampleRequests =
        [(uuid_String (uuid_New [1]), 28), (uuid_String (uuid_New [2]), 109)] ∧
      (∀ id : String,
        (∃ n : Int,
          (runRequests sampleLib ServerState.empty sampleRequests).pointsStore id = some n) ↔
          id ∈ returned sampleLib ServerState.empty sampleRequests) ∧
      ∀ (id : String) (n : Int),
        (runRequests sampleLib ServerState.empty sampleRequests).pointsStore id = some n ↔
          (id, n) ∈ issued sampleLib ServerState.empty sampleRequests :=
  ⟨sampleRequests_fresh, by decide, by decide,
    (C16_store_invariant sampleLib sampleRequests sampleRequests_fresh).1,
    (C16_store_invariant sampleLib sampleRequests sampleRequests_fresh).2.1⟩

/-- C17: identifier rejection.  For every state of the store and every
identifier that is empty or contains a character of `\s` (the identifiers that
`^\S+$` does not match), `GetPoints` answers status 404 with "No receipt found
for that ID." whatever the store holds under that key, and leaves the state
unchanged. -/
theorem C17_identifier_rejection (st : ServerState) (id : String)
    (hid : id = "" ∨ ∃ c ∈ id.data, perlSpace c = true) :
    idRgx_MatchString id = false ∧
      GetPoints st id = (HttpResponse.text 404 "No receipt found for that ID.", st) := by
  have hm := (idRgx_false_iff id).mpr hid
  refine ⟨hm, ?_⟩
  unfold GetPoints
  by_cases he : id = ""
  · rw [if_pos he]
  · rw [if_neg he, hm]
    rfl

/-- Witness of C17 at the identifier of `TestGetPointsOfInvalidID`, with the
store holding that very key. -/
theorem C17_identifier_rejection_witness :
    ("NOT A UUID" = "" ∨ ∃ c ∈ "NOT A UUID".data, perlSpace c = true) ∧
      GetPoints ⟨syncMap_Store (fun _ => none) "NOT A UUID" 7, fun _ => none⟩ "NOT A UUID" =
        (HttpResponse.text 404 "No receipt found for that ID.",
          ⟨syncMap_Store (fun _ => none) "NOT A UUID" 7, fun _ => none⟩) :=
  ⟨Or.inr ⟨' ', by decide, by decide⟩,
    (C17_identifier_rejection ⟨syncMap_Store (fun _ => none) "NOT A UUID" 7, fun _ => none⟩
      "NOT A UUID" (Or.inr ⟨' ', by decide, by decide⟩)).2⟩

/-- C18 (the code departs from the claim): `ProcessReceipt` reads the counter
with `bonusMap.Load` and writes it back with a separate `bonusMap.Store`.  For
two concurrent calls with the same key on a fresh server, under the schedule
in which both load before either stores, both calls read n = 0 and are granted
1000, and the counter ends at 1; run one after the other they read 0 and 1 and
the counter ends at 2.  A call that runs alone takes the same three steps to
the state that `ProcessReceipt` yields. -/
theorem C18_lost_update :
    (runSchedule sampleLib twoCalls racySchedule).2.1.pc = HandlerPc.finished 0 1000 ∧
      (runSchedule sampleLib twoCalls racySchedule).2.2.pc = HandlerPc.finished 0 1000 ∧
      timesProcessed (runSchedule sampleLib twoCalls racySchedule).1 "alice" = 1 ∧
      (runSchedule sampleLib twoCalls serialSchedule).2.1.pc = HandlerPc.finished 0 1000 ∧
      (runSchedule sampleLib twoCalls serialSchedule).2.2.pc = HandlerPc.finished 1 500 ∧
      timesProcessed (runSchedule sampleLib twoCalls serialSchedule).1 "alice" = 2 ∧
      ∀ (L : GoLib) (st : ServerState) (userID : String) (rnd : List Nat) (r : Receipt),
        r.ValidateProperties = none →
        (runSchedule L
          (st, ⟨userID, rnd, r, HandlerPc.start⟩, ⟨userID, rnd, r, HandlerPc.rejected⟩)
          [false, false, false]).1 = (ProcessReceipt L st userID rnd r).2 :=
  ⟨by decide, by decide, by decide, by decide, by decide, by decide, handler_alone⟩

/-- C19 (the code departs from its own comment): the rule that the source
labels "2-4 PM rule", with the variable `fourPM` and the message "is between 2
and 4", adds its 10 points at 17:00 as well, since `fourPM` is parsed from
"18:00"; for the scenario A receipt with purchase time 17:00 the score is 38,
not 28. -/
theorem C19_points_after_four_pm (L : GoLib) :
    fivePMReceipt.ValidateProperties = none ∧
      parseTime fivePMReceipt.PurchaseTime = some (17 * 60 + 0) ∧
      (∀ tp : Int, timeRule fivePMReceipt.PurchaseTime tp = add64 tp 10) ∧
      fivePMReceipt.CalculatePoints L = some 38 :=
  ⟨by decide, by decide, fun _ => rfl, rfl⟩

/-- C20: `CalculatePointsVerbose` returns exactly what `CalculatePoints`
returns, for every receipt, validated or not, including the receipts on which
both panic. -/
theorem C20_verbose_same_score (L : GoLib) (r : Receipt) :
    r.CalculatePointsVerbose L = r.CalculatePoints L := by
  have hrange := retailerRule_range L r.Retailer.data
  have h0 : add64 0 (retailerRule L r.Retailer.data 0) = retailerRule L r.Retailer.data 0 := by
    unfold add64
    rw [zero_add]
    exact wrap64_of_range _ hrange.1 hrange.2
  unfold Receipt.CalculatePointsVerbose Receipt.CalculatePoints totalRule
  simp only [verboseRetailerLoop_eq, verboseDescriptionLoop_eq, h0]
  cases (strings_SplitDot (dollarAmtRgx_FindString r.Total)).get? 1 with
  | none => rfl
  | some p => rfl

set_option exponentiation.threshold 5000 in
/-- C21 (the code departs from the claim): validation does not bound the
number of digits of a price, so a validated receipt can carry a scored item
whose price is above the largest `float64`.  For the price 10^309
`strconv.ParseFloat` returns +Inf with the error `ErrRange`, the error is
discarded, and the points of the item are the implementation-dependent result
of converting +Inf to `int64`.  The other parts of the claim hold for every
validated receipt: the total splits into exactly two parts, `Atoi` succeeds on
the cents, both `time.Parse` calls succeed, `CalculatePoints` does not panic,
and `ParseFloat` returns no error for a price below 2^1023. -/
theorem C21_parseFloat_range_error :
    hugePriceReceipt.ValidateProperties = none ∧
      (utf8Len (strings_TrimSpace "abc".data) % 3 = 0 ∧
        0 < utf8Len (strings_TrimSpace "abc".data)) ∧
      strconv_ParseFloat_errRange hugePrice = true ∧
      (∀ L : GoLib, strconv_ParseFloat L hugePrice = F64.inf false ∧
        priceFifth L hugePrice = wrap64 (L.int64OutOfRange (F64.inf false))) ∧
      hugePriceReceipt.CalculatePoints sampleLib = some (-9223372036854775796) ∧
      ∀ r : Receipt, r.ValidateProperties = none →
        (∃ (dollars : List Char) (a b : Char),
          strings_SplitDot (dollarAmtRgx_FindString r.Total) = [dollars, [a, b]] ∧
          (strconv_Atoi [a, b]).2 = true) ∧
        (∃ d, parseDate r.PurchaseDate = some d) ∧
        (∃ t, parseTime r.PurchaseTime = some t) ∧
        (∀ L : GoLib, ∃ n, r.CalculatePoints L = some n) ∧
        ∀ item ∈ r.Items, priceCents item.Price < 100 * 2 ^ 1023 →
          strconv_ParseFloat_errRange item.Price = false := by
  refine ⟨by decide, by decide, by decide, fun L => ⟨rfl, rfl⟩, rfl, ?_⟩
  intro r hv
  have h := (receipt_valid_iff r).mp hv
  exact ⟨valid_total_parts r hv, Option.isSome_iff_exists.mp h.2.2.2.1,
    Option.isSome_iff_exists.mp h.2.2.2.2.1, fun L => calculatePoints_isSome L r hv,
    fun item _ hc => parseFloat_no_range_error item.Price hc⟩

end FetchReceipt
